import Mathlib

/-!
Verification of the RAG-CL content-block extraction pipeline
(`ragcl/entity_extractor.py`, `ragcl/raganything_entity_extractor.py`,
`ragcl/lightrag_entity_extractor.py`) and of the bounded-concurrency batch
orchestrator (`ragcl/ragcl.py`, `RAGAnythingCL.parse_documents_batch`).

The Python data values flowing through the pipeline (parsed content blocks,
JSON values recovered from LLM completions, result dictionaries) are modelled
by the inductive type `PyVal` below.  Python strings are Lean `String`s
(Python `len` counts code points, as does `String.length`; slicing `s[:k]`
is modelled char-list based so that proofs evaluate inside the kernel).
The external LLM endpoint is an oracle parameter `Prompt → Option String`
(`None` models an API error caught at the call site); prompt construction by
`str.format` on a fixed template is injective in its payload slots, so a
prompt is modelled as the constructor of the template applied to the payload.
-/

/-- Model of a Python value as it appears in this pipeline: strings, ints,
floats (kept as their numeric lexeme — no claim depends on float arithmetic),
booleans, `None`, lists and string-keyed dicts (association lists in
insertion order, keys unique, as for Python dicts). -/
inductive PyVal where
  | str (s : String)
  | int (n : Int)
  | float (lexeme : String)
  | bool (b : Bool)
  | none
  | list (xs : List PyVal)
  | dict (entries : List (String × PyVal))

/-- Entries of a Python dict, in insertion order. -/
abbrev PyDict := List (String × PyVal)

/-- Lookup `d[key]` / `d.get(key)` on a dict with unique keys. -/
def dictGet : PyDict → String → Option PyVal
  | [], _ => Option.none
  | (k, v) :: tl, key => if k = key then some v else dictGet tl key

/-- Assignment `d[key] = v` on a Python dict: an existing key keeps its
position and is overwritten, a new key is appended at the end. -/
def dset : PyDict → String → PyVal → PyDict
  | [], key, v => [(key, v)]
  | (k, w) :: tl, key, v =>
      if k = key then (k, v) :: tl else (k, w) :: dset tl key v

/-- Python `d.get(key, default)`. -/
def dGetD (d : PyDict) (key : String) (dflt : PyVal) : PyVal :=
  (dictGet d key).getD dflt

/-- Python `d.get(key, default)` where the use site needs a string (the
callers only reach this with string values; see the pipeline models). -/
def dGetStr (d : PyDict) (key : String) (dflt : String) : String :=
  match dictGet d key with
  | some (PyVal.str s) => s
  | _ => dflt

/-- Python truthiness of a value (`if not x`). -/
def pyFalsy : PyVal → Bool
  | .str s => s = ("")
  | .int n => n = 0
  | .float lx => lx = ("0") || lx = ("0.0")
  | .bool b => !b
  | .none => true
  | .list xs => xs.isEmpty
  | .dict d => d.isEmpty

/-- Whether a value is a dict (`isinstance(block, dict)`). -/
def isPyDict : PyVal → Bool
  | .dict _ => true
  | _ => false

/-- ASCII whitespace stripped by Python `str.strip()` (the documents and
claims in play contain no non-ASCII whitespace). -/
def isPySpace (c : Char) : Bool :=
  c = ' ' || c = '\t' || c = '\n' || c = '\r' || c = '\x0b' || c = '\x0c'

/-- Python `s.strip()`. -/
def pyStrip (s : String) : String :=
  String.mk (((s.data.dropWhile isPySpace).reverse.dropWhile isPySpace).reverse)

/-- Python `s[:k]` for `k ≥ 0`. -/
def pyTake (s : String) (k : Nat) : String := String.mk (s.data.take k)

mutual

/-- Python `repr` of a value (as used by `str()` on the elements of a list,
e.g. in `str(cell)` for table cells that are themselves lists). -/
def pyRepr : PyVal → String
  | .str s => ("'") ++ s ++ ("'")
  | .int n => toString n
  | .float lx => lx
  | .bool b => if b then ("True") else ("False")
  | .none => ("None")
  | .list xs => ("[") ++ pyReprList xs ++ ("]")
  | .dict d => ("\x7b") ++ pyReprDict d ++ ("\x7d")

/-- Comma-separated `repr` of list elements. -/
def pyReprList : List PyVal → String
  | [] => ("")
  | [x] => pyRepr x
  | x :: tl => pyRepr x ++ (", ") ++ pyReprList tl

/-- Comma-separated `repr` of dict entries. -/
def pyReprDict : PyDict → String
  | [] => ("")
  | [(k, v)] => ("'") ++ k ++ ("': ") ++ pyRepr v
  | (k, v) :: tl => ("'") ++ k ++ ("': ") ++ pyRepr v ++ (", ") ++ pyReprDict tl

end

/-- Python `str(v)`. -/
def pyStr : PyVal → String
  | .str s => s
  | v => pyRepr v

/-! ### `json.loads`

A recursive-descent parser for the JSON accepted by Python's `json.loads`
(strict mode): one value, optionally surrounded by JSON whitespace, nothing
else.  Numbers follow the grammar `-?(0|[1-9]\d*)(\.\d+)?([eE][+-]?\d+)?`
plus the CPython extensions `NaN`, `Infinity`, `-Infinity`; integers become
`PyVal.int`, other numbers keep their lexeme as `PyVal.float`.  Duplicate
object keys follow last-wins dict insertion.  `\uXXXX` escapes map to the
code point (surrogate pairing is not modelled; no input in this development
contains such escapes). -/

/-- JSON whitespace (`json.decoder`: space, tab, newline, carriage return). -/
def isJsonWs (c : Char) : Bool :=
  c = ' ' || c = '\t' || c = '\n' || c = '\r'

/-- Hexadecimal digit value. -/
def hexVal (c : Char) : Option Nat :=
  if ('0' ≤ c && c ≤ '9') then some (c.toNat - '0'.toNat)
  else if ('a' ≤ c && c ≤ 'f') then some (c.toNat - 'a'.toNat + 10)
  else if ('A' ≤ c && c ≤ 'F') then some (c.toNat - 'A'.toNat + 10)
  else Option.none

/-- Decimal digit test. -/
def isDig (c : Char) : Bool := '0' ≤ c && c ≤ '9'

/-- Parse the body of a JSON string after the opening quote, with an
accumulator; returns the decoded string and the input after the closing
quote.  Unescaped control characters are rejected (strict mode). -/
def jsonStringBody : List Char → List Char → Option (String × List Char)
  | acc, '"' :: rest => some (String.mk acc.reverse, rest)
  | acc, '\\' :: e :: rest =>
      match e with
      | '"' => jsonStringBody ('"' :: acc) rest
      | '\\' => jsonStringBody ('\\' :: acc) rest
      | '/' => jsonStringBody ('/' :: acc) rest
      | 'b' => jsonStringBody ('\x08' :: acc) rest
      | 'f' => jsonStringBody ('\x0c' :: acc) rest
      | 'n' => jsonStringBody ('\n' :: acc) rest
      | 'r' => jsonStringBody ('\r' :: acc) rest
      | 't' => jsonStringBody ('\t' :: acc) rest
      | 'u' =>
          match rest with
          | h1 :: h2 :: h3 :: h4 :: rest' =>
              match hexVal h1, hexVal h2, hexVal h3, hexVal h4 with
              | some a, some b, some c, some d =>
                  jsonStringBody (Char.ofNat (((a * 16 + b) * 16 + c) * 16 + d) :: acc) rest'
              | _, _, _, _ => Option.none
          | _ => Option.none
      | _ => Option.none
  | acc, c :: rest =>
      if c.toNat < 32 then Option.none else jsonStringBody (c :: acc) rest
  | _, [] => Option.none

/-- Parse a JSON number at the head of the input (sign and first digit
already checked by the caller to be present). -/
def jsonNumber (cs : List Char) : Option (PyVal × List Char) :=
  let (sign, cs1) : (Bool × List Char) :=
    match cs with
    | '-' :: tl => (true, tl)
    | _ => (false, cs)
  let intPart : Option (List Char × List Char) :=
    match cs1 with
    | '0' :: tl => some (['0'], tl)
    | c :: tl =>
        if isDig c && c ≠ '0' then some (c :: tl.takeWhile isDig, tl.dropWhile isDig)
        else Option.none
    | [] => Option.none
  match intPart with
  | Option.none => Option.none
  | some (ip, cs2) =>
      let (fracPart, cs3) : (List Char × List Char) :=
        match cs2 with
        | '.' :: d :: tl =>
            if isDig d then ('.' :: d :: tl.takeWhile isDig, tl.dropWhile isDig)
            else ([], cs2)
        | _ => ([], cs2)
      let (expPart, cs4) : (List Char × List Char) :=
        match cs3 with
        | e :: '+' :: d :: tl =>
            if (e = 'e' || e = 'E') && isDig d then (e :: '+' :: d :: tl.takeWhile isDig, tl.dropWhile isDig)
            else ([], cs3)
        | e :: '-' :: d :: tl =>
            if (e = 'e' || e = 'E') && isDig d then (e :: '-' :: d :: tl.takeWhile isDig, tl.dropWhile isDig)
            else ([], cs3)
        | e :: d :: tl =>
            if (e = 'e' || e = 'E') && isDig d then (e :: d :: tl.takeWhile isDig, tl.dropWhile isDig)
            else ([], cs3)
        | _ => ([], cs3)
      let lexeme := (if sign then ['-'] else []) ++ ip ++ fracPart ++ expPart
      if fracPart = [] && expPart = [] then
        let mag : Nat := ip.foldl (fun n c => n * 10 + (c.toNat - '0'.toNat)) 0
        some (PyVal.int (if sign then -(mag : Int) else (mag : Int)), cs4)
      else
        some (PyVal.float (String.mk lexeme), cs4)

mutual

/-- Parse one JSON value at the head of the input (no leading whitespace). -/
def jsonValue (fuel : Nat) (cs : List Char) : Option (PyVal × List Char) :=
  match fuel with
  | 0 => Option.none
  | fuel + 1 =>
      match cs with
      | '"' :: rest =>
          match jsonStringBody [] rest with
          | some (s, rest') => some (PyVal.str s, rest')
          | Option.none => Option.none
      | '\x7b' :: rest => jsonMembers fuel (rest.dropWhile isJsonWs) [] true
      | '[' :: rest => jsonElements fuel (rest.dropWhile isJsonWs) [] true
      | 't' :: 'r' :: 'u' :: 'e' :: rest => some (PyVal.bool true, rest)
      | 'f' :: 'a' :: 'l' :: 's' :: 'e' :: rest => some (PyVal.bool false, rest)
      | 'n' :: 'u' :: 'l' :: 'l' :: rest => some (PyVal.none, rest)
      | 'N' :: 'a' :: 'N' :: rest => some (PyVal.float ("NaN"), rest)
      | 'I' :: 'n' :: 'f' :: 'i' :: 'n' :: 'i' :: 't' :: 'y' :: rest =>
          some (PyVal.float ("Infinity"), rest)
      | '-' :: 'I' :: 'n' :: 'f' :: 'i' :: 'n' :: 'i' :: 't' :: 'y' :: rest =>
          some (PyVal.float ("-Infinity"), rest)
      | c :: _ =>
          if c = '-' || isDig c then jsonNumber cs else Option.none
      | [] => Option.none

/-- Parse the members of a JSON object after `{` (whitespace skipped);
`first` is true before the first member. -/
def jsonMembers (fuel : Nat) (cs : List Char) (acc : PyDict) (first : Bool) :
    Option (PyVal × List Char) :=
  match fuel with
  | 0 => Option.none
  | fuel + 1 =>
      match cs with
      | '\x7d' :: rest =>
          if first then some (PyVal.dict acc, rest) else Option.none
      | '"' :: rest =>
          match jsonStringBody [] rest with
          | some (k, rest1) =>
              match rest1.dropWhile isJsonWs with
              | ':' :: rest2 =>
                  match jsonValue fuel (rest2.dropWhile isJsonWs) with
                  | some (v, rest3) =>
                      let acc' := dset acc k v
                      match rest3.dropWhile isJsonWs with
                      | ',' :: rest4 => jsonMembers fuel (rest4.dropWhile isJsonWs) acc' false
                      | '\x7d' :: rest4 => some (PyVal.dict acc', rest4)
                      | _ => Option.none
                  | Option.none => Option.none
              | _ => Option.none
          | Option.none => Option.none
      | _ => Option.none

/-- Parse the elements of a JSON array after `[` (whitespace skipped);
`first` is true before the first element. -/
def jsonElements (fuel : Nat) (cs : List Char) (acc : List PyVal) (first : Bool) :
    Option (PyVal × List Char) :=
  match fuel with
  | 0 => Option.none
  | fuel + 1 =>
      match cs with
      | ']' :: rest =>
          if first then some (PyVal.list acc.reverse, rest) else Option.none
      | _ =>
          match jsonValue fuel cs with
          | some (v, rest1) =>
              match rest1.dropWhile isJsonWs with
              | ',' :: rest2 => jsonElements fuel (rest2.dropWhile isJsonWs) (v :: acc) false
              | ']' :: rest2 => some (PyVal.list (v :: acc).reverse, rest2)
              | _ => Option.none
          | Option.none => Option.none

end

/-- Model of Python `json.loads(s)`: `some v` when `s` is one JSON value
surrounded only by whitespace, `none` when `json.loads` would raise
`JSONDecodeError`. -/
def jsonLoads (s : String) : Option PyVal :=
  match jsonValue (s.data.length + 1) (s.data.dropWhile isJsonWs) with
  | some (v, rest) => if rest.dropWhile isJsonWs = [] then some v else Option.none
  | Option.none => Option.none

example : jsonLoads ("\x7b\"entities\":[]\x7d") = some (PyVal.dict [(("entities"), PyVal.list [])]) := rfl

example : jsonLoads ("no valid data") = Option.none := rfl

example : jsonLoads ("here is the answer:\n```json\n\x7b\"entities\":[]\x7d\n```") = Option.none := rfl

example : jsonLoads (" [1, -2.5e3, \"a\", true, null] ") =
    some (PyVal.list [PyVal.int 1, PyVal.float ("-2.5e3"), PyVal.str ("a"),
      PyVal.bool true, PyVal.none]) := rfl

/-! ### The regular expressions of the response recoverers

`EntityExtractor._parse_llm_response` uses
`re.findall(r'```(?:json)?\s*([\s\S]*?)```', response, re.IGNORECASE)` and
`re.findall(r'\{[\s\S]*\}', response)`.

`RAGAnythingEntityExtractor._parse_json_response` uses the patterns
`r'```(?:json)?\\s*([\\s\\S]*?)```'` and `r'\\{[\\s\\S]*\\}'`.  These are
raw strings, so the regex engine sees `\\s*` = a literal backslash followed
by any number of `s` characters, `[\\s\\S]` = the character class
containing backslash, `s` and `S`, and `\\{` / `\\}` = a literal backslash
followed by a brace.  Both sets of patterns are modelled below by direct
scanning functions whose behaviour matches `re.findall` (leftmost
non-overlapping matches; the lazy group captures up to the nearest closing
fence; the single greedy brace span runs from the first `{` to the last
`}`). -/

/-- The triple-backtick fence delimiter. -/
def fenceChars : List Char := ['`', '`', '`']

/-- Python `\s` for the inputs in play (ASCII whitespace). -/
def isRegexSpace (c : Char) : Bool := isPySpace c

/-- Consume an optional case-insensitive `json` tag (`(?:json)?` under
`re.IGNORECASE`); the regex prefers consuming it when present. -/
def stripJsonTag (cs : List Char) : List Char :=
  match cs with
  | c1 :: c2 :: c3 :: c4 :: rest =>
      if c1.toLower = 'j' && c2.toLower = 's' && c3.toLower = 'o' && c4.toLower = 'n' then rest
      else cs
  | _ => cs

/-- Split the input at the first occurrence of `sub`, returning the part
before it and the part after it. -/
def splitAtSub (sub : List Char) : List Char → Option (List Char × List Char)
  | [] => if sub.isEmpty then some ([], []) else Option.none
  | c :: tl =>
      if sub.isPrefixOf (c :: tl) then some ([], (c :: tl).drop sub.length)
      else
        match splitAtSub sub tl with
        | some (pre, post) => some (c :: pre, post)
        | Option.none => Option.none

/-- One step of `re.findall(r'```(?:json)?\s*([\s\S]*?)```', ·, re.IGNORECASE)`:
after an opening fence the optional `json` tag and greedy `\s*` are consumed,
and the lazy group captures everything up to the nearest closing fence
(backslash-s-S matches every character).  If no closing fence follows, no
further match exists (any later opening fence would also lack a closer). -/
def fenceMatchesGo (fuel : Nat) (cs : List Char) : List String :=
  match fuel with
  | 0 => []
  | fuel + 1 =>
      match splitAtSub fenceChars cs with
      | Option.none => []
      | some (_, afterOpen) =>
          let body := (stripJsonTag afterOpen).dropWhile isRegexSpace
          match splitAtSub fenceChars body with
          | Option.none => []
          | some (content, afterClose) =>
              String.mk content :: fenceMatchesGo fuel afterClose

/-- `re.findall` for the fenced-code-block pattern of
`EntityExtractor._parse_llm_response`. -/
def fenceMatches (s : String) : List String :=
  fenceMatchesGo (s.data.length + 1) s.data

/-- `re.findall(r'\{[\s\S]*\}', ·)`: the greedy match runs from the first
`{` to the last `}` (when the latter comes after the former), and consumes
every later `}`, so there is at most one match. -/
def braceMatches (s : String) : List String :=
  let cs := s.data
  let pre := cs.takeWhile (fun c => c ≠ '\x7b')
  if pre.length = cs.length then []
  else
    let fromBrace := cs.drop pre.length
    let revTail := fromBrace.reverse.takeWhile (fun c => c ≠ '\x7d')
    if revTail.length = fromBrace.length then []
    else
      let span := fromBrace.take (fromBrace.length - revTail.length)
      if span.length ≥ 2 then [String.mk span] else []

/-- The character class `[\\s\\S]` of the raw-string patterns in
`RAGAnythingEntityExtractor._parse_json_response`: backslash, `s`, `S`. -/
def raClassChar (c : Char) : Bool := c = '\\' || c = 's' || c = 'S'

/-- Match the part of the broken fenced pattern after the opening fence and
optional `json` tag: a literal backslash, then greedy `s*`, then the lazy
class group, then the closing fence.  Because the class contains no
backtick, the group must end exactly at the first non-class character,
which must start a closing fence.  Returns the group and the input after
the closing fence. -/
def raFenceTail (cs : List Char) : Option (List Char × List Char) :=
  match cs with
  | '\\' :: rest =>
      let sRun := rest.takeWhile (fun c => c = 's')
      let afterS := rest.drop sRun.length
      let classRun := afterS.takeWhile raClassChar
      let afterRun := afterS.drop classRun.length
      if fenceChars.isPrefixOf afterRun then some (classRun, afterRun.drop 3)
      else Option.none
  | _ => Option.none

/-- `re.findall` scan for the broken fenced pattern
`r'```(?:json)?\\s*([\\s\\S]*?)```'`: at each position, an opening fence is
tried; on failure the scan advances one character (when the `json` tag was
consumed and the tail failed, retrying without the tag would require a
literal backslash to match `j`, so it fails as well). -/
def raFenceMatchesGo (fuel : Nat) (cs : List Char) : List String :=
  match fuel with
  | 0 => []
  | fuel + 1 =>
      match cs with
      | [] => []
      | _ :: tl =>
          if fenceChars.isPrefixOf cs then
            match raFenceTail (stripJsonTag (cs.drop 3)) with
            | some (content, rest) => String.mk content :: raFenceMatchesGo fuel rest
            | Option.none => raFenceMatchesGo fuel tl
          else raFenceMatchesGo fuel tl

/-- `re.findall` for the broken fenced pattern of
`RAGAnythingEntityExtractor._parse_json_response`. -/
def raFenceMatches (s : String) : List String :=
  raFenceMatchesGo (s.data.length + 1) s.data

/-- `re.findall` scan for the broken brace pattern `r'\\{[\\s\\S]*\\}'`:
a literal `\{`, a greedy class run, then a literal `\}`.  Since `}` is not
a class character, the closing `\}` can only sit at the end of the maximal
class run following `\{`. -/
def raBraceMatchesGo (fuel : Nat) (cs : List Char) : List String :=
  match fuel with
  | 0 => []
  | fuel + 1 =>
      match cs with
      | [] => []
      | _ :: tl =>
          match cs with
          | '\\' :: '\x7b' :: rest =>
              let run := rest.takeWhile raClassChar
              if run.getLast? = some '\\' && (rest.drop run.length).head? = some '\x7d' then
                String.mk ('\\' :: '\x7b' :: (run.dropLast ++ ['\\', '\x7d'])) ::
                  raBraceMatchesGo fuel (rest.drop (run.length + 1))
              else raBraceMatchesGo fuel tl
          | _ => raBraceMatchesGo fuel tl

/-- `re.findall` for the broken brace pattern of
`RAGAnythingEntityExtractor._parse_json_response`. -/
def raBraceMatches (s : String) : List String :=
  raBraceMatchesGo (s.data.length + 1) s.data

/-! ### The response recoverers -/

/-- Try candidate strings in order: the first non-empty (after `strip`)
candidate that `json.loads` accepts wins (the `try/except json.JSONDecodeError
... continue` loop shared by both recoverers). -/
def firstJson : List String → Option PyVal
  | [] => Option.none
  | c :: tl =>
      let c' := pyStrip c
      if c' = ("") then firstJson tl
      else
        match jsonLoads c' with
        | some v => some v
        | Option.none => firstJson tl

/-- `EntityExtractor._parse_llm_response`: the candidates are, in order,
the stripped full response, every fenced code block's content, then the
greedy brace span. -/
def parse_llm_response (response : String) : Option PyVal :=
  if response = ("") then Option.none
  else firstJson ([pyStrip response] ++ fenceMatches response ++ braceMatches response)

/-- `RAGAnythingEntityExtractor._parse_json_response`: same candidate loop,
but with the broken raw-string patterns for strategies 2 and 3. -/
def parse_json_response (response : String) : Option PyVal :=
  if response = ("") then Option.none
  else firstJson ([pyStrip response] ++ raFenceMatches response ++ raBraceMatches response)

/-- The fenced-response example from the specification. -/
def fencedExample : String := ("here is the answer:\n```json\n\x7b\"entities\":[]\x7d\n```")

example : fenceMatches fencedExample = [("\x7b\"entities\":[]\x7d\n")] := rfl

example : parse_llm_response fencedExample = some (PyVal.dict [(("entities"), PyVal.list [])]) := rfl

example : parse_llm_response ("no valid data") = Option.none := rfl

example : parse_json_response fencedExample = Option.none := rfl

example : raFenceMatches fencedExample = [] := rfl

example : raBraceMatches fencedExample = [] := rfl

example : braceMatches ("a \x7b\"x\":1\x7d b \x7b\"y\":2\x7d c") = [("\x7b\"x\":1\x7d b \x7b\"y\":2\x7d")] := rfl

/-! ### Prompts and the inference-service oracle

Each prompt template of the pipeline is a fixed string with payload slots
filled by `str.format`; with the template fixed, the map payload ↦ prompt
string is injective, so a request is modelled as the template's constructor
applied to its payload.  The external service (`_async_openai_call` /
`_call_llm`) is an oracle `Prompt → Option String`; `none` models an API
failure caught at the call site. -/

/-- One request to the inference service, by template and payload. -/
inductive Prompt where
  | text_entity_extraction (content : String)
  | table_entity_extraction (caption : String) (table_data : String)
  | document_structure_analysis (content_blocks : List PyVal)
  | relationship (entity_names : List PyVal)
  | ra_generic_text (content : String)
  | ra_table (entity_name : String) (table_img_path : String) (table_caption : String)
      (table_body : String) (table_footnote : String)
  | ra_vision (entity_name : String) (image_path : String) (captions : String)
      (footnotes : String)

/-- The inference-service behaviour. -/
abbrev Oracle := Prompt → Option String

/-- `EntityExtractor._call_llm_for_extraction`: one call, then JSON recovery;
an empty or missing completion, an API error, or unrecoverable output all
yield `None`. -/
def call_llm_for_extraction (oracle : Oracle) (p : Prompt) : Option PyVal :=
  match oracle p with
  | some r => if r = ("") then Option.none else parse_llm_response r
  | Option.none => Option.none

/-! ### `EntityExtractor` — classification and merging -/

/-- Python `enumerate` starting at `i`. -/
def enumFrom (i : Nat) : List PyVal → List (Nat × PyVal)
  | [] => []
  | v :: tl => (i, v) :: enumFrom (i + 1) tl

/-- Python `enumerate(content_list)`. -/
def pyEnum (cl : List PyVal) : List (Nat × PyVal) := enumFrom 0 cl

/-- Test `block.get('type', dflt) == t` without comparing arbitrary values
(a non-string `type` value never equals a string literal). -/
def isTypeStr (d : PyDict) (dflt : String) (t : String) : Bool :=
  match dictGet d ("type") with
  | some (PyVal.str s) => s = t
  | some _ => false
  | Option.none => dflt = t

/-- The in-place mutation `block['block_index'] = i` performed on every dict
element of the content list (non-dicts are skipped by `isinstance`). -/
def blockIndexItem (i : Nat) : PyVal → PyVal
  | .dict d => .dict (dset d ("block_index") (PyVal.int i))
  | v => v

/-- The classification loop of
`EntityExtractor.extract_entities_from_content_list` over the enumerated
content list: skip non-dicts, assign `block_index`, and collect the text
and table subsequences in order. -/
def classifyEnum : List (Nat × PyVal) → List PyDict × List PyDict
  | [] => ([], [])
  | (i, v) :: tl =>
      match v with
      | .dict d =>
          let d' := dset d ("block_index") (PyVal.int i)
          let rest := classifyEnum tl
          if isTypeStr d ("unknown") ("text") then (d' :: rest.1, rest.2)
          else if isTypeStr d ("unknown") ("table") then (rest.1, d' :: rest.2)
          else rest
      | _ => classifyEnum tl

/-- The content list as the caller observes it after the pipeline ran: every
dict element carries its `block_index`, everything else is untouched (the
later phases work on copies — `block.copy()` in `_merge_text_blocks` — and
on freshly parsed response values, never on the input blocks). -/
def mutatedContentList (eps : List (Nat × PyVal)) : List PyVal :=
  eps.map fun p => blockIndexItem p.1 p.2

/-- Absorption step of `EntityExtractor._merge_text_blocks`: append the
stripped text of `b` to the accumulator's text (joined by a newline) and
record the absorbed `block_index`.  The accumulator's `text` is a string and
`merged_blocks` a list whenever present, because the accumulator starts as a
copy of a text block and is only modified here. -/
def mergeAbsorb (cur : PyDict) (b : PyDict) : PyDict :=
  let t := pyStrip (dGetStr b ("text") (""))
  let cur1 := dset cur ("text") (PyVal.str (dGetStr cur ("text") ("") ++ ("\n") ++ t))
  let old : List PyVal :=
    match dictGet cur ("merged_blocks") with
    | some (PyVal.list l) => l
    | _ => []
  dset cur1 ("merged_blocks") (PyVal.list (old ++ [dGetD b ("block_index") (PyVal.int (-1))]))

/-- The scan of `EntityExtractor._merge_text_blocks`: a block whose stripped
text is shorter than 200 characters is absorbed into an existing
accumulator; otherwise the accumulator (if any) is flushed and a copy of the
block starts a new one; the final accumulator is flushed at the end. -/
def mergeGo : Option PyDict → List PyDict → List PyDict
  | cur, [] =>
      match cur with
      | some c => [c]
      | Option.none => []
  | cur, b :: bs =>
      let t := pyStrip (dGetStr b ("text") (""))
      match cur with
      | some c =>
          if t.length < 200 then mergeGo (some (mergeAbsorb c b)) bs
          else c :: mergeGo (some b) bs
      | Option.none => mergeGo (some b) bs

/-- `EntityExtractor._merge_text_blocks`. -/
def merge_text_blocks (text_blocks : List PyDict) : List PyDict :=
  mergeGo Option.none text_blocks

/-! ### `EntityExtractor` — per-unit extraction -/

/-- Source annotation of one recovered text entity
(`entity['source_block'] = ...` etc.; assignment order as in the source;
the caller guards that `e` is a dict). -/
def annotateTextEntity (b : PyDict) (e : PyVal) : PyVal :=
  match e with
  | .dict ed =>
      .dict (dset (dset (dset ed ("source_block") (dGetD b ("block_index") (PyVal.int (-1))))
          ("source_page") (dGetD b ("page_idx") (PyVal.int 0)))
        ("source_type") (PyVal.str ("text")))
  | v => v

/-- Contribution of one merged text unit (its stripped text is `≥ 10` chars,
checked by the caller): one request, and the annotated `entities` field of
the recovered record.  A recovered value that is not a dict, an `entities`
field that is not a list, or a list with a non-dict element, raises a
`TypeError` inside the per-unit `try`, so that unit contributes nothing. -/
def textUnitEntities (oracle : Oracle) (b : PyDict) : List PyVal × List Prompt :=
  let tc := pyStrip (dGetStr b ("text") (""))
  let p := Prompt.text_entity_extraction tc
  match call_llm_for_extraction oracle p with
  | some (PyVal.dict rd) =>
      match dictGet rd ("entities") with
      | some (PyVal.list es) =>
          (if es.all isPyDict then es.map (annotateTextEntity b) else [], [p])
      | _ => ([], [p])
  | _ => ([], [p])

/-- The unit loop of `EntityExtractor._extract_text_entities` over the
already merged units: units whose stripped text is shorter than 10
characters are skipped before any request is built. -/
def textEntitiesGo (oracle : Oracle) : List PyDict → List PyVal × List Prompt
  | [] => ([], [])
  | b :: bs =>
      let rest := textEntitiesGo oracle bs
      let tc := pyStrip (dGetStr b ("text") (""))
      if tc.length < 10 then rest
      else
        let this := textUnitEntities oracle b
        (this.1 ++ rest.1, this.2 ++ rest.2)

/-- `EntityExtractor._extract_text_entities` (entities plus the requests it
issued). -/
def extract_text_entities (oracle : Oracle) (text_blocks : List PyDict) :
    List PyVal × List Prompt :=
  textEntitiesGo oracle (merge_text_blocks text_blocks)

/-- Join a list of strings with a separator (Python `sep.join`). -/
def joinSep (sep : String) : List String → String
  | [] => ("")
  | [x] => x
  | x :: tl => x ++ sep ++ joinSep sep tl

/-- The cells of one row as sliced by `row[:k]` with `str(cell)[:50]`
applied: rows that are lists or strings are sliceable (a string row yields
its characters), anything else raises `TypeError`. -/
def rowCells (k : Nat) (row : PyVal) : Option (List String) :=
  match row with
  | .list cells => some ((cells.take k).map fun c => pyTake (pyStr c) 50)
  | .str s => some ((s.data.take k).map fun c => pyTake (String.mk [c]) 50)
  | _ => Option.none

/-- Render the enumerated rows (`行{i+1}: cell | cell | ...`). -/
def formatRowsGo (k : Nat) : List (Nat × PyVal) → Option (List String)
  | [] => some []
  | (i, row) :: tl =>
      match rowCells k row, formatRowsGo k tl with
      | some cells, some rest =>
          some ((("行") ++ toString (i + 1) ++ (": ") ++ joinSep (" | ") cells) :: rest)
      | _, _ => Option.none

/-- The rows denoted by `table_body[:10]` (lists and strings are sliceable;
anything else raises `TypeError`). -/
def bodyRows (body : PyVal) : Option (List PyVal) :=
  match body with
  | .list rows => some (rows.take 10)
  | .str s => some ((s.data.take 10).map fun c => PyVal.str (String.mk [c]))
  | _ => Option.none

/-- `EntityExtractor._format_table_for_llm`: an empty/falsy body renders as
`空表格`; otherwise the first 10 rows, the first 10 cells of each row, each
cell stringified and truncated to 50 characters; `none` models a `TypeError`
from slicing a non-sliceable row (caught by the caller's `try`). -/
def format_table_for_llm (table_body : PyVal) : Option String :=
  if pyFalsy table_body then some ("空表格")
  else
    match bodyRows table_body with
    | some rows =>
        match formatRowsGo 10 (enumFrom 0 rows) with
        | some lines => some (joinSep ("\n") lines)
        | Option.none => Option.none
    | Option.none => Option.none

/-- Source annotation of one recovered table entity (adds
`source_caption` as well). -/
def annotateTableEntity (b : PyDict) (capVal : PyVal) (e : PyVal) : PyVal :=
  match e with
  | .dict ed =>
      .dict (dset (dset (dset (dset ed ("source_block") (dGetD b ("block_index") (PyVal.int (-1))))
            ("source_page") (dGetD b ("page_idx") (PyVal.int 0)))
          ("source_type") (PyVal.str ("table")))
        ("source_caption") capVal)
  | v => v

/-- Contribution of one table block in
`EntityExtractor._extract_table_entities`: falsy bodies are skipped before
any request; a `TypeError` while formatting skips the block; otherwise one
request is issued and the `extracted_entities` field is annotated, under the
same dict/list guards as for text. -/
def tableUnitEntities (oracle : Oracle) (b : PyDict) : List PyVal × List Prompt :=
  let capVal := dGetD b ("table_caption") (PyVal.str ("未命名表格"))
  let body := dGetD b ("table_body") (PyVal.list [])
  if pyFalsy body then ([], [])
  else
    match format_table_for_llm body with
    | Option.none => ([], [])
    | some td =>
        let p := Prompt.table_entity_extraction (pyStr capVal) td
        match call_llm_for_extraction oracle p with
        | some (PyVal.dict rd) =>
            match dictGet rd ("extracted_entities") with
            | some (PyVal.list es) =>
                (if es.all isPyDict then es.map (annotateTableEntity b capVal) else [], [p])
            | _ => ([], [p])
        | _ => ([], [p])

/-- The block loop of `EntityExtractor._extract_table_entities`. -/
def tableEntitiesGo (oracle : Oracle) : List PyDict → List PyVal × List Prompt
  | [] => ([], [])
  | b :: bs =>
      let rest := tableEntitiesGo oracle bs
      let this := tableUnitEntities oracle b
      (this.1 ++ rest.1, this.2 ++ rest.2)

/-- `EntityExtractor._extract_table_entities`. -/
def extract_table_entities (oracle : Oracle) (table_blocks : List PyDict) :
    List PyVal × List Prompt :=
  tableEntitiesGo oracle table_blocks

/-! ### `EntityExtractor` — document structure, relationships, aggregation -/

/-- One preview record of `_analyze_document_structure` (dict blocks only;
non-dicts are skipped by `isinstance`). -/
def structurePreview (v : PyVal) : Option PyVal :=
  match v with
  | .dict d =>
      some (PyVal.dict
        [(("type"), dGetD d ("type") (PyVal.str ("unknown"))),
         (("text_preview"), PyVal.str (pyTake (pyStr (dGetD d ("text") (dGetD d ("table_caption") (PyVal.str (""))))) 100)),
         (("page"), dGetD d ("page_idx") (PyVal.int 0))])
  | _ => Option.none

/-- `EntityExtractor._analyze_document_structure`: previews of the first 10
elements of the (mutated) content list, one request, and `doc_analysis or {}`
with `{}` on failure. -/
def analyze_document_structure (oracle : Oracle) (content_list : List PyVal) : PyVal :=
  let info := (content_list.take 10).filterMap structurePreview
  match call_llm_for_extraction oracle (Prompt.document_structure_analysis info) with
  | some v => if pyFalsy v then PyVal.dict [] else v
  | Option.none => PyVal.dict []

/-- `entity.get('name', '')` on an already-extracted entity (always a dict;
every entity appended to `all_entities` passes the `isPyDict` guard). -/
def entityName : PyVal → PyVal
  | .dict ed => dGetD ed ("name") (PyVal.str (""))
  | _ => PyVal.str ("")

/-- `EntityExtractor._extract_entity_relationships`: fewer than 2 entities
yield no call; otherwise the names of the first 20 entities form one request
and the recovered `relationships` field (with `[]` defaults on falsy or
unusable results, the `try/except` returning `[]`) is handed back raw. -/
def extract_entity_relationships (oracle : Oracle) (entities : List PyVal) : PyVal :=
  if entities.length < 2 then PyVal.list []
  else
    let names := (entities.take 20).map entityName
    match call_llm_for_extraction oracle (Prompt.relationship names) with
    | some (PyVal.dict rd) =>
        if rd.isEmpty then PyVal.list [] else dGetD rd ("relationships") (PyVal.list [])
    | some _ => PyVal.list []
    | Option.none => PyVal.list []

/-- `all_relationships.extend(relationships)` at the call site (outside any
`try`): lists extend with their elements, strings with their characters,
dicts with their keys; any other value raises `TypeError`, which escapes the
pipeline and is caught only by `extract_entities_sync`. -/
def pyExtendList : PyVal → Except String (List PyVal)
  | .list xs => Except.ok xs
  | .str s => Except.ok (s.data.map fun c => PyVal.str (String.mk [c]))
  | .dict d => Except.ok (d.map fun kv => PyVal.str kv.1)
  | _ => Except.error ("TypeError")

/-- The aggregate result of one pipeline run (§3 `ExtractionResult`). -/
structure ExtractionResult where
  entities : List PyVal
  relationships : List PyVal
  document_analysis : PyVal
  statistics : PyDict

/-- The final aggregation of `extract_entities_from_content_list`:
`all_relationships.extend(...)` (whose `TypeError` on an unusable
relationships value is the one modelled pipeline-level failure) followed by
the literal result dictionary with its derived statistics. -/
def eeAssemble (cls : List PyDict × List PyDict) (tx tb : List PyVal × List Prompt)
    (docA : PyVal) (relVal : PyVal) : Except String (ExtractionResult × List Prompt) :=
  match pyExtendList relVal with
  | Except.error e => Except.error e
  | Except.ok rels =>
      Except.ok
        ({ entities := tx.1 ++ tb.1
           relationships := rels
           document_analysis := docA
           statistics :=
             [(("total_entities"), PyVal.int (tx.1 ++ tb.1).length),
              (("total_relationships"), PyVal.int rels.length),
              (("text_blocks_processed"), PyVal.int cls.1.length),
              (("table_blocks_processed"), PyVal.int cls.2.length)] },
         tx.2 ++ tb.2)

/-- `EntityExtractor.extract_entities_from_content_list` over the enumerated
content list, instrumented with the list of per-block requests it issued
(text and table extraction requests; the single document-structure and
relationship requests are separate).  See `eeAssemble` for the final
aggregation and the failure path. -/
def eeExtractEnum (oracle : Oracle) (eps : List (Nat × PyVal)) (extract_relations : Bool) :
    Except String (ExtractionResult × List Prompt) :=
  let cls := classifyEnum eps
  let tx := extract_text_entities oracle cls.1
  let tb := extract_table_entities oracle cls.2
  let allEnts := tx.1 ++ tb.1
  let docA := analyze_document_structure oracle (mutatedContentList eps)
  let relVal :=
    if extract_relations && allEnts.length > 1 then
      extract_entity_relationships oracle allEnts
    else PyVal.list []
  eeAssemble cls tx tb docA relVal

/-- `EntityExtractor.extract_entities_from_content_list`. -/
def extract_entities_from_content_list (oracle : Oracle) (cl : List PyVal)
    (extract_relations : Bool) : Except String (ExtractionResult × List Prompt) :=
  eeExtractEnum oracle (pyEnum cl) extract_relations

/-- The error-shaped result shared by every `except` fallback of the sync
entry points: empty sequences and a `statistics` dict with one `error`
field. -/
def errorResult (e : String) : ExtractionResult :=
  { entities := []
    relationships := []
    document_analysis := PyVal.dict []
    statistics := [(("error"), PyVal.str e)] }

/-- `EntityExtractor.extract_entities_sync`: run the pipeline (with
`extract_relations` defaulted to true) and map any escaped exception to the
error-shaped result. -/
def extract_entities_sync (oracle : Oracle) (cl : List PyVal) : ExtractionResult :=
  match extract_entities_from_content_list oracle cl true with
  | Except.ok r => r.1
  | Except.error e => errorResult e

/-! ### `RAGAnythingEntityExtractor`

The second, prompt-reimplementing pipeline.  Its `_call_llm` is the same
oracle; `_parse_json_response` is the recoverer with the broken raw-string
patterns.  Each `_process_*` helper returns its recovered record (or `none`)
plus the requests it issued; an exception inside a helper or inside the
per-block annotation is caught by the loop's `try` and voids that block's
contribution. -/

/-- Substring test (Python `'needle' in haystack` for strings). -/
def containsSub (needle : String) (hay : String) : Bool :=
  (splitAtSub needle.data hay.data).isSome

/-- Python `'entity_info' in result` for a non-dict `result`: list membership
(string equality with elements), substring test for strings; numbers and
booleans raise `TypeError`. -/
def strMemTest (key : String) : PyVal → Option Bool
  | .dict d => some ((dictGet d key).isSome)
  | .list xs =>
      some (xs.any fun v =>
        match v with
        | .str s => s = key
        | _ => false)
  | .str s => some (containsSub key s)
  | _ => Option.none

/-- `RAGAnythingEntityExtractor._call_llm` followed by
`_parse_json_response`. -/
def ra_recover (oracle : Oracle) (p : Prompt) : Option PyVal :=
  match oracle p with
  | some r => parse_json_response r
  | Option.none => Option.none

/-- `RAGAnythingEntityExtractor._process_text_content`: blocks whose
stripped text is shorter than 10 characters are dropped before any request;
otherwise the text is truncated to 2000 characters and one
`generic_text_extraction` request is issued. -/
def ra_process_text_content (oracle : Oracle) (item : PyDict) :
    Option PyVal × List Prompt :=
  let text := pyStrip (dGetStr item ("text") (""))
  if text.length < 10 then (Option.none, [])
  else
    let p := Prompt.ra_generic_text (pyTake text 2000)
    (ra_recover oracle p, [p])

/-- `f"..._{caption[:20]}"`: slicing the raw caption value (strings and
lists are sliceable, anything else raises `TypeError`), then stringified by
the f-string. -/
def capSlice20 : PyVal → Option String
  | .str s => some (pyTake s 20)
  | .list l => some (pyRepr (PyVal.list (l.take 20)))
  | _ => Option.none

/-- `RAGAnythingEntityExtractor._format_table_data`: first 10 rows, first 8
cells of each row, each cell stringified and truncated to 50 characters
(same shape as the `EntityExtractor` renderer but with 8 columns). -/
def format_table_data (table_body : PyVal) : Option String :=
  if pyFalsy table_body then some ("空表格")
  else
    match bodyRows table_body with
    | some rows =>
        match formatRowsGo 8 (enumFrom 0 rows) with
        | some lines => some (joinSep ("\n") lines)
        | Option.none => Option.none
    | Option.none => Option.none

/-- The `entity_info` conversion shared by the table and image helpers: a
truthy recovered record containing `entity_info` is rewritten to a
one-entity record; a falsy or `entity_info`-free record is returned as is;
an unusable record (non-dict `entity_info`, membership `TypeError`) raises
and voids the block. -/
def raConvertModal (dfltName : String) (dfltType : String) : Option PyVal → Option PyVal
  | Option.none => Option.none
  | some res =>
      if pyFalsy res then some res
      else
        match strMemTest ("entity_info") res with
        | some false => some res
        | some true =>
            match res with
            | .dict rd =>
                match dictGet rd ("entity_info") with
                | some (PyVal.dict eid) =>
                    some (PyVal.dict
                      [(("entities"), PyVal.list
                          [PyVal.dict
                            [(("name"), dGetD eid ("entity_name") (PyVal.str dfltName)),
                             (("type"), dGetD eid ("entity_type") (PyVal.str dfltType)),
                             (("description"), dGetD rd ("detailed_description") (PyVal.str (""))),
                             (("summary"), dGetD eid ("summary") (PyVal.str (""))),
                             (("relevance_score"), PyVal.float ("1.0"))]]),
                       (("relationships"), PyVal.list []),
                       (("content_analysis"), res)])
                | _ => Option.none
            | _ => Option.none
        | Option.none => Option.none

/-- `RAGAnythingEntityExtractor._process_table_content`. -/
def ra_process_table_content (oracle : Oracle) (item : PyDict) (index : Nat) :
    Option PyVal × List Prompt :=
  let capVal := dGetD item ("table_caption") (PyVal.str ("未命名表格"))
  let body := dGetD item ("table_body") (PyVal.list [])
  if pyFalsy body then (Option.none, [])
  else
    match format_table_data body with
    | Option.none => (Option.none, [])
    | some tableStr =>
        match capSlice20 capVal with
        | Option.none => (Option.none, [])
        | some capTail =>
            let entityName := ("Table_") ++ toString index ++ ("_") ++ capTail
            let p := Prompt.ra_table entityName (pyStr (dGetD item ("img_path") (PyVal.str (""))))
              (pyStr capVal) tableStr (pyStr (dGetD item ("table_footnote") (PyVal.str (""))))
            (raConvertModal entityName ("table") (ra_recover oracle p), [p])

/-- `RAGAnythingEntityExtractor._process_image_content`. -/
def ra_process_image_content (oracle : Oracle) (item : PyDict) (index : Nat) :
    Option PyVal × List Prompt :=
  let capVal := dGetD item ("image_caption") (PyVal.str ("未命名图片"))
  match capSlice20 capVal with
  | Option.none => (Option.none, [])
  | some capTail =>
      let entityName := ("Image_") ++ toString index ++ ("_") ++ capTail
      let p := Prompt.ra_vision entityName (pyStr (dGetD item ("img_path") (PyVal.str (""))))
        (pyStr capVal) (pyStr (dGetD item ("footnotes") (PyVal.str (""))))
      (raConvertModal entityName ("image") (ra_recover oracle p), [p])

/-- `RAGAnythingEntityExtractor._process_generic_content`: content shorter
than 5 characters is dropped, otherwise truncated to 1000 characters and
sent through the generic text template. -/
def ra_process_generic_content (oracle : Oracle) (item : PyDict) :
    Option PyVal × List Prompt :=
  let content := pyTake (pyStr (dGetD item ("text") (dGetD item ("content") (PyVal.str (""))))) 1000
  if content.length < 5 then (Option.none, [])
  else
    let p := Prompt.ra_generic_text content
    (ra_recover oracle p, [p])

/-- Annotation of the recovered entities and relationships of one block
(`entity['source_block'] = i` etc., relationships get block and page only);
non-dict elements raise `TypeError` and void the block's contribution. -/
def raAnnotate (i : Nat) (item : PyDict) (res : PyVal) : List PyVal × List PyVal :=
  if pyFalsy res then ([], [])
  else
    match res with
    | .dict rd =>
        match dGetD rd ("entities") (PyVal.list []), dGetD rd ("relationships") (PyVal.list []) with
        | PyVal.list es, PyVal.list rs =>
            if es.all isPyDict && rs.all isPyDict then
              (es.map fun e =>
                 match e with
                 | .dict ed =>
                     PyVal.dict (dset (dset (dset ed ("source_block") (PyVal.int i))
                         ("source_page") (dGetD item ("page_idx") (PyVal.int 0)))
                       ("source_type") (dGetD item ("type") (PyVal.str ("text"))))
                 | v => v,
               rs.map fun r =>
                 match r with
                 | .dict rdd =>
                     PyVal.dict (dset (dset rdd ("source_block") (PyVal.int i))
                       ("source_page") (dGetD item ("page_idx") (PyVal.int 0)))
                 | v => v)
            else ([], [])
        | _, _ => ([], [])
    | _ => ([], [])

/-- One iteration of the type dispatch in
`RAGAnythingEntityExtractor.extract_entities_from_content_list` (the default
content type is `text`). -/
def raProcessItem (oracle : Oracle) (i : Nat) (item : PyDict) :
    Option PyVal × List Prompt :=
  if isTypeStr item ("text") ("text") then ra_process_text_content oracle item
  else if isTypeStr item ("text") ("table") then ra_process_table_content oracle item i
  else if isTypeStr item ("text") ("image") then ra_process_image_content oracle item i
  else ra_process_generic_content oracle item

/-- The block loop of the `RAGAnything` pipeline over the enumerated content
list: non-dict elements are skipped, everything else is dispatched, and
recovered entities/relationships are annotated and accumulated. -/
def raLoop (oracle : Oracle) : List (Nat × PyVal) → List PyVal × List PyVal × List Prompt
  | [] => ([], [], [])
  | (i, v) :: tl =>
      let rest := raLoop oracle tl
      match v with
      | .dict item =>
          let pr := raProcessItem oracle i item
          match pr.1 with
          | some res =>
              let ann := raAnnotate i item res
              (ann.1 ++ rest.1, ann.2 ++ rest.2.1, pr.2 ++ rest.2.2)
          | Option.none => (rest.1, rest.2.1, pr.2 ++ rest.2.2)
      | _ => rest

/-- A dict key for grouping by a `type` value: the string itself for
strings, the `repr` for anything else (Python keys such dicts by the value;
no claim distinguishes non-string type values). -/
def typeKeyOf (v : PyVal) : String :=
  match v with
  | .str s => s
  | v => pyRepr v

/-- The `content_types` counting loop shared by the document-structure
analyzers of the `RAGAnything` and `LightRAG` pipelines. -/
def countTypes (acc : PyDict) : List PyVal → PyDict
  | [] => acc
  | v :: tl =>
      match v with
      | .dict d =>
          let key := typeKeyOf (dGetD d ("type") (PyVal.str ("unknown")))
          let prev : Int :=
            match dictGet acc key with
            | some (PyVal.int n) => n
            | _ => 0
          countTypes (dset acc key (PyVal.int (prev + 1))) tl
      | _ => countTypes acc tl

/-- The set of `page_idx` values (deduplicated by `repr`; Python
deduplicates by value equality, which no claim distinguishes). -/
def pageSetSize (cl : List PyVal) : Nat :=
  ((cl.filterMap fun v =>
      match v with
      | PyVal.dict d => (dictGet d ("page_idx")).map pyRepr
      | _ => Option.none)).dedup.length

/-- The local `_analyze_document_structure` shared (verbatim duplicated
code) by `RAGAnythingEntityExtractor` and `LightRAGEntityExtractor`: fixed
`document_info`, counted content types, page count, empty entity lists. -/
def ra_analyze_document_structure (cl : List PyVal) : PyVal :=
  PyVal.dict
    [(("document_info"), PyVal.dict
        [(("title"), PyVal.str ("Processed Document")),
         (("type"), PyVal.str ("Technical Document")),
         (("domain"), PyVal.str ("General")),
         (("language"), PyVal.str ("Mixed"))]),
     (("content_statistics"), PyVal.dict
        [(("total_pages"), PyVal.int (pageSetSize cl)),
         (("content_types"), PyVal.dict (countTypes [] cl))]),
     (("structure_entities"), PyVal.list []),
     (("global_entities"), PyVal.list [])]

/-- `RAGAnythingEntityExtractor.extract_entities_from_content_list` over the
enumerated content list (the `extract_relations` flag is accepted and, as in
the source, unused). -/
def raExtractEnum (oracle : Oracle) (eps : List (Nat × PyVal)) (extract_relations : Bool) :
    ExtractionResult × List Prompt :=
  let lp := raLoop oracle eps
  let _ := extract_relations
  ({ entities := lp.1
     relationships := lp.2.1
     document_analysis := ra_analyze_document_structure (eps.map Prod.snd)
     statistics :=
       [(("total_entities"), PyVal.int lp.1.length),
        (("total_relationships"), PyVal.int lp.2.1.length),
        (("content_blocks_processed"), PyVal.int eps.length),
        (("processing_method"), PyVal.str ("raganything_style"))] },
   lp.2.2)

/-- `RAGAnythingEntityExtractor.extract_entities_from_content_list`. -/
def ra_extract_entities_from_content_list (oracle : Oracle) (cl : List PyVal)
    (extract_relations : Bool) : ExtractionResult × List Prompt :=
  raExtractEnum oracle (pyEnum cl) extract_relations

/-! ### `LightRAGEntityExtractor`

This variant drives the external `lightrag` library.  The library's
`extract_entities` and `compute_mdhash_id` are collaborators outside this
repository: `compute_mdhash_id` is a parameter `String → Except String
String` (its failure escapes to the pipeline-level `except`), and the
library call is a parameter returning the per-chunk `(nodes, edges, ...)`
tuples, whose own failure is caught inside
`_extract_entities_with_lightrag` and yields `[]`. -/

/-- `LightRAGEntityExtractor._extract_text_content`: text is stripped; a
table renders its caption plus the first 5 list-shaped rows with the first 8
cells, cells truncated to 50 characters; images render their caption;
anything else falls back to 500 characters of `text`/`content`. -/
def lr_extract_text_content (item : PyDict) : String :=
  if isTypeStr item ("text") ("text") then pyStrip (dGetStr item ("text") (""))
  else if isTypeStr item ("text") ("table") then
    let capVal := dGetD item ("table_caption") (PyVal.str (""))
    let body := dGetD item ("table_body") (PyVal.list [])
    let capPart : List String :=
      if pyFalsy capVal then [] else [("Table: ") ++ pyStr capVal]
    let rowPart : List String :=
      if pyFalsy body then []
      else
        match body with
        | PyVal.list rows =>
            (rows.take 5).filterMap fun row =>
              match row with
              | PyVal.list cells =>
                  some (joinSep (" | ") ((cells.take 8).map fun c => pyTake (pyStr c) 50))
              | _ => Option.none
        | _ => []
    joinSep ("\n") (capPart ++ rowPart)
  else if isTypeStr item ("text") ("image") then
    let capVal := dGetD item ("image_caption") (PyVal.str (""))
    if pyFalsy capVal then ("Image content") else ("Image: ") ++ pyStr capVal
  else
    pyTake (pyStr (dGetD item ("text") (dGetD item ("content") (PyVal.str (""))))) 500

/-- The chunk record built by
`LightRAGEntityExtractor._convert_to_lightrag_chunks` for content item `i`. -/
def lrChunkData (i : Nat) (item : PyDict) (content : String) : PyVal :=
  PyVal.dict
    [(("content"), PyVal.str content),
     (("chunk_order_index"), PyVal.int i),
     (("full_doc_id"), PyVal.str ("ragcl-document")),
     (("chunk_index"), PyVal.int i),
     (("file_path"), dGetD item ("file_path") (PyVal.str ("unknown"))),
     (("page_idx"), dGetD item ("page_idx") (PyVal.int 0)),
     (("content_type"), dGetD item ("type") (PyVal.str ("text"))),
     (("source_item"), PyVal.dict item)]

/-- The conversion loop of `_convert_to_lightrag_chunks` over the enumerated
content list: non-dicts are skipped; the chunks dict is keyed by the hash of
the extracted text (`chunk-` prefix folded into the hash parameter), so
items with equal extracted text collapse, last wins. -/
def lrConvertGo (mdhash : String → Except String String) (acc : PyDict) :
    List (Nat × PyVal) → Except String PyDict
  | [] => Except.ok acc
  | (i, v) :: tl =>
      match v with
      | .dict item =>
          let content := lr_extract_text_content item
          match mdhash content with
          | Except.ok key => lrConvertGo mdhash (dset acc key (lrChunkData i item content)) tl
          | Except.error e => Except.error e
      | _ => lrConvertGo mdhash acc tl

/-- `LightRAGEntityExtractor._convert_to_lightrag_chunks`. -/
def lr_convert_to_lightrag_chunks (mdhash : String → Except String String)
    (cl : List PyVal) : Except String PyDict :=
  lrConvertGo mdhash [] (pyEnum cl)

/-- One entity record built by `_process_chunk_results` from a
`maybe_nodes` entry. -/
def lrEntityOf (name : String) (ed : PyDict) : PyVal :=
  PyVal.dict
    [(("name"), PyVal.str name),
     (("type"), dGetD ed ("entity_type") (PyVal.str ("Entity"))),
     (("description"), dGetD ed ("description") (PyVal.str (""))),
     (("relevance_score"), PyVal.float ("1.0")),
     (("source_type"), PyVal.str ("lightrag")),
     (("raw_data"), PyVal.dict ed)]

/-- Opaque model of `edge_data.get("weight", 1.0) / 10.0`: a float whose
value no claim inspects (float arithmetic is not interpreted). -/
def weightDiv10 (w : PyVal) : PyVal := PyVal.float (pyStr w ++ ("/10"))

/-- One relationship record built by `_process_chunk_results` from a
`maybe_edges` value. -/
def lrRelOf (ed : PyDict) : PyVal :=
  PyVal.dict
    [(("from"), dGetD ed ("src_id") (PyVal.str (""))),
     (("to"), dGetD ed ("tgt_id") (PyVal.str (""))),
     (("relation"), dGetD ed ("keywords") (PyVal.str ("related_to"))),
     (("description"), dGetD ed ("description") (PyVal.str (""))),
     (("confidence"), weightDiv10 (dGetD ed ("weight") (PyVal.float ("1.0")))),
     (("raw_data"), PyVal.dict ed)]

/-- `LightRAGEntityExtractor._process_chunk_results`: each chunk result with
at least two components contributes its dict-shaped nodes (as entities) and
dict-shaped edge values (as relationships); everything else is skipped by
`isinstance` guards. -/
def lr_process_chunk_results : List (List PyVal) → List PyVal × List PyVal
  | [] => ([], [])
  | cr :: tl =>
      let rest := lr_process_chunk_results tl
      match cr with
      | nodes :: edges :: _ =>
          let ents : List PyVal :=
            match nodes with
            | PyVal.dict nd =>
                nd.filterMap fun kv =>
                  match kv.2 with
                  | PyVal.dict ed => some (lrEntityOf kv.1 ed)
                  | _ => Option.none
            | _ => []
          let rels : List PyVal :=
            match edges with
            | PyVal.dict edd =>
                edd.filterMap fun kv =>
                  match kv.2 with
                  | PyVal.dict ed => some (lrRelOf ed)
                  | _ => Option.none
            | _ => []
          (ents ++ rest.1, rels ++ rest.2)
      | _ => rest

/-- `LightRAGEntityExtractor.extract_entities_from_content_list`: convert,
run the library (its failure caught to `[]`), convert the chunk results,
attach the local document analysis and statistics; a failure escaping to the
outer `except` (modelled: a `compute_mdhash_id` failure) yields the
error-shaped result. -/
def lr_extract_entities_from_content_list (mdhash : String → Except String String)
    (lightragExtract : PyDict → Except String (List (List PyVal)))
    (cl : List PyVal) : ExtractionResult :=
  match lr_convert_to_lightrag_chunks mdhash cl with
  | Except.error e => errorResult e
  | Except.ok chunks =>
      let chunkResults :=
        match lightragExtract chunks with
        | Except.ok rs => rs
        | Except.error _ => []
      let pr := lr_process_chunk_results chunkResults
      { entities := pr.1
        relationships := pr.2
        document_analysis := ra_analyze_document_structure cl
        statistics :=
          [(("total_entities"), PyVal.int pr.1.length),
           (("total_relationships"), PyVal.int pr.2.length),
           (("chunks_processed"), PyVal.int chunks.length),
           (("content_blocks_processed"), PyVal.int cl.length)] }

/-! ### `RAGAnythingCL.parse_documents_batch`

The batch orchestrator.  `parse_document` (external parser plus option
plumbing) is an oracle `String → Except String (List PyVal)`; a raised
exception is its `error` case.  The orchestrator splits the input paths into
chunks of `batch_size` (`range(0, len(file_paths), batch_size)`), runs each
chunk on a thread pool of `max_workers` workers, stores each success in the
`results` dict keyed by the path, and appends each failed path to the local
`failed_files` list, which is logged and then discarded: the function
returns only `results`.  The association list below records insertion in
submission order; `as_completed` makes the Python insertion order
nondeterministic, so only its key-value content (which is deterministic) is
quoted by theorems. -/

/-- `file_paths[i:i+batch_size]` chunks for `i in range(0, len, batch_size)`
(the Python `range` requires a positive step; theorems assume `0 < b`). -/
def chunksGo (b : Nat) : Nat → List String → List (List String)
  | _, [] => []
  | 0, _ => []
  | fuel + 1, fs => fs.take b :: chunksGo b fuel (fs.drop b)

/-- The chunk decomposition of the batch loop. -/
def chunksOf (b : Nat) (files : List String) : List (List String) :=
  chunksGo b files.length files

/-- The worker outcome accumulation over one or more chunks: successes into
the results mapping, failures into the `failed_files` list. -/
def batchGo (parse : String → Except String (List PyVal)) :
    List String → List (String × List PyVal) × List String
  | [] => ([], [])
  | f :: fs =>
      let rest := batchGo parse fs
      match parse f with
      | Except.ok c => ((f, c) :: rest.1, rest.2)
      | Except.error _ => (rest.1, f :: rest.2)

/-- `RAGAnythingCL.parse_documents_batch`: the value actually returned is
the success mapping alone (`return results`); `failed_files` is logged and
dropped. -/
def parse_documents_batch (parse : String → Except String (List PyVal))
    (batch_size : Nat) (file_paths : List String) : List (String × List PyVal) :=
  (batchGo parse ((chunksOf batch_size file_paths).flatten)).1
/-! ### Basic lemmas about the dict and string models -/

theorem dictGet_dset_self (d : PyDict) (k : String) (v : PyVal) :
    dictGet (dset d k v) k = some v := by
  induction d with
  | nil => simp [dset, dictGet]
  | cons hd tl ih =>
      obtain ⟨k', w⟩ := hd
      by_cases h : k' = k
      · simp [dset, dictGet, h]
      · simp [dset, dictGet, h, ih]

theorem dictGet_dset_ne (d : PyDict) (k key : String) (v : PyVal) (h : key ≠ k) :
    dictGet (dset d k v) key = dictGet d key := by
  have h' : k ≠ key := Ne.symm h
  induction d with
  | nil => simp [dset, dictGet, h']
  | cons hd tl ih =>
      obtain ⟨k', w⟩ := hd
      by_cases hk : k' = k
      · subst hk
        simp [dset, dictGet, h']
      · simp only [dset, if_neg hk]
        by_cases hk2 : k' = key
        · simp [dictGet, hk2]
        · simp [dictGet, hk2, ih]

theorem pyTake_pyTake (s : String) (k : Nat) : pyTake (pyTake s k) k = pyTake s k := by
  simp [pyTake, List.take_take]

theorem pyStr_str (s : String) : pyStr (PyVal.str s) = s := rfl

/-! ### C3 — table rendering bounds

`EntityExtractor._format_table_for_llm` slices `table_body[:10]` and
`row[:10]` — ten columns, not the eight the claim states; the
`RAGAnything`-style `_format_table_data` slices `row[:8]`.  The bounds are
stated as truncation invariance: the rendering of a table equals the
rendering of the table restricted to its first 10 rows, its first `k`
columns, and each cell stringified and cut to 50 characters — exactly the
statement that nothing beyond those bounds is emitted. -/

/-- The two renderers differ only in the column slice `k`; this is their
common body. -/
def formatCore (k : Nat) (table_body : PyVal) : Option String :=
  if pyFalsy table_body then some ("空表格")
  else
    match bodyRows table_body with
    | some rows =>
        match formatRowsGo k (enumFrom 0 rows) with
        | some lines => some (joinSep ("\n") lines)
        | Option.none => Option.none
    | Option.none => Option.none

theorem format_table_for_llm_eq_core : ∀ b, format_table_for_llm b = formatCore 10 b :=
  fun _ => rfl

theorem format_table_data_eq_core : ∀ b, format_table_data b = formatCore 8 b :=
  fun _ => rfl

/-- The claim-side truncation of a table to 10 rows, `k` columns, and
50-character stringified cells. -/
def truncTable (k : Nat) (rows : List (List PyVal)) : List (List PyVal) :=
  (rows.take 10).map fun r => (r.take k).map fun c => PyVal.str (pyTake (pyStr c) 50)

theorem rowCells_list_trunc (k : Nat) (r : List PyVal) :
    rowCells k (PyVal.list ((r.take k).map fun c => PyVal.str (pyTake (pyStr c) 50))) =
      rowCells k (PyVal.list r) := by
  simp [rowCells, List.take_take, List.map_map, Function.comp_def, pyStr_str, pyTake_pyTake,
    List.map_take]

theorem formatRowsGo_trunc (k : Nat) (rows : List (List PyVal)) (i : Nat) :
    formatRowsGo k (enumFrom i ((rows.map fun r => (r.take k).map fun c =>
        PyVal.str (pyTake (pyStr c) 50)).map PyVal.list)) =
      formatRowsGo k (enumFrom i (rows.map PyVal.list)) := by
  induction rows generalizing i with
  | nil => rfl
  | cons r rs ih =>
      simp only [List.map_cons, enumFrom, formatRowsGo, rowCells_list_trunc, ih]

theorem bodyRows_list (xs : List PyVal) : bodyRows (PyVal.list xs) = some (xs.take 10) := rfl

theorem formatCore_trunc (k : Nat) (rows : List (List PyVal)) :
    formatCore k (PyVal.list ((truncTable k rows).map PyVal.list)) =
      formatCore k (PyVal.list (rows.map PyVal.list)) := by
  rcases rows with _ | ⟨r, rs⟩
  · rfl
  · have h1 : pyFalsy (PyVal.list ((truncTable k (r :: rs)).map PyVal.list)) = false := by
      simp [truncTable, pyFalsy]
    have h2 : pyFalsy (PyVal.list ((r :: rs).map PyVal.list)) = false := by
      simp [pyFalsy]
    have htake : ((truncTable k (r :: rs)).map PyVal.list).take 10 =
        (truncTable k (r :: rs)).map PyVal.list := by
      apply List.take_of_length_le
      simp only [List.length_map, truncTable]
      exact List.length_take_le 10 (r :: rs)
    have heq : formatRowsGo k (enumFrom 0 ((truncTable k (r :: rs)).map PyVal.list)) =
        formatRowsGo k (enumFrom 0 (((r :: rs).take 10).map PyVal.list)) := by
      simpa only [truncTable] using formatRowsGo_trunc k ((r :: rs).take 10) 0
    simp only [formatCore, h1, h2, Bool.false_eq_true, if_false, bodyRows_list, htake,
      List.map_take, List.take_take, min_self, heq]

/-- A nine-column single-row table of one-character string cells. -/
def nineCells : List PyVal :=
  [PyVal.str ("a"), PyVal.str ("b"), PyVal.str ("c"), PyVal.str ("d"), PyVal.str ("e"),
   PyVal.str ("f"), PyVal.str ("g"), PyVal.str ("h"), PyVal.str ("i")]

/-- C3, counterexample: `EntityExtractor._format_table_for_llm` — one of the
two table renderers the claim covers — emits the ninth column of a
nine-column row (its slice is `row[:10]`, not `row[:8]`): the rendering of
the row differs from the rendering of its first-8-columns truncation, and
the ninth cell is visibly part of the output. -/
theorem C3_counterexample_nine_columns :
    format_table_for_llm (PyVal.list [PyVal.list nineCells]) =
        some (("行1: a | b | c | d | e | f | g | h | i")) ∧
      format_table_for_llm (PyVal.list [PyVal.list (nineCells.take 8)]) =
        some (("行1: a | b | c | d | e | f | g | h")) ∧
      format_table_for_llm (PyVal.list [PyVal.list nineCells]) ≠
        format_table_for_llm (PyVal.list [PyVal.list (nineCells.take 8)]) := by
  refine ⟨rfl, rfl, ?_⟩
  intro h
  rw [show format_table_for_llm (PyVal.list [PyVal.list nineCells]) =
      some (("行1: a | b | c | d | e | f | g | h | i")) from rfl,
    show format_table_for_llm (PyVal.list [PyVal.list (nineCells.take 8)]) =
      some (("行1: a | b | c | d | e | f | g | h")) from rfl] at h
  exact absurd (Option.some.inj h) (by decide)

/-- C3, amended: for every table (list of rows, rows lists of cells), both
renderers emit at most the first 10 rows and truncate every stringified
cell to 50 characters; the column slice is the first 10 columns in
`EntityExtractor._format_table_for_llm` and the first 8 columns in
`RAGAnythingEntityExtractor._format_table_data` — stated as invariance of
the rendering under the corresponding pre-truncation of the input. -/
theorem C3_table_rendering_bounds :
    (∀ rows : List (List PyVal),
        format_table_for_llm (PyVal.list ((truncTable 10 rows).map PyVal.list)) =
          format_table_for_llm (PyVal.list (rows.map PyVal.list))) ∧
      (∀ rows : List (List PyVal),
        format_table_data (PyVal.list ((truncTable 8 rows).map PyVal.list)) =
          format_table_data (PyVal.list (rows.map PyVal.list))) := by
  constructor
  · intro rows
    rw [format_table_for_llm_eq_core, format_table_for_llm_eq_core]
    exact formatCore_trunc 10 rows
  · intro rows
    rw [format_table_data_eq_core, format_table_data_eq_core]
    exact formatCore_trunc 8 rows

/-! ### C1 — the ordered-fallback response recovery -/

theorem dropWhile_dropWhile_self (p : Char → Bool) (l : List Char) :
    (l.dropWhile p).dropWhile p = l.dropWhile p := by
  induction l with
  | nil => rfl
  | cons c tl ih =>
      by_cases h : p c <;> simp [List.dropWhile_cons, h, ih]

theorem dropWhile_of_head_false {p : Char → Bool} {l : List Char}
    (h : l = [] ∨ ∃ c tl, l = c :: tl ∧ p c = false) : l.dropWhile p = l := by
  rcases h with h | ⟨c, tl, rfl, hc⟩
  · simp [h]
  · simp [List.dropWhile_cons, hc]

theorem head_shape_of_dropWhile (p : Char → Bool) (l : List Char) :
    l.dropWhile p = [] ∨ ∃ c tl, l.dropWhile p = c :: tl ∧ p c = false := by
  induction l with
  | nil => exact Or.inl rfl
  | cons c tl ih =>
      by_cases h : p c
      · simpa [List.dropWhile_cons, h] using ih
      · exact Or.inr ⟨c, tl, by simp [List.dropWhile_cons, h], by simpa using h⟩

theorem pyStrip_idem (s : String) : pyStrip (pyStrip s) = pyStrip s := by
  unfold pyStrip
  set p := isPySpace with hp
  set m := s.data.dropWhile p with hm
  have hdata : (String.mk (((m).reverse.dropWhile p).reverse)).data =
      ((m).reverse.dropWhile p).reverse := rfl
  rw [hdata]
  set m' := (m.reverse.dropWhile p).reverse with hm'
  have hsplit : m = m' ++ (m.reverse.takeWhile p).reverse := by
    have := List.takeWhile_append_dropWhile (p := p) (l := m.reverse)
    calc m = m.reverse.reverse := by simp
      _ = (m.reverse.takeWhile p ++ m.reverse.dropWhile p).reverse := by rw [this]
      _ = m' ++ (m.reverse.takeWhile p).reverse := by
            rw [List.reverse_append]
  have hfront : m'.dropWhile p = m' := by
    apply dropWhile_of_head_false
    rcases head_shape_of_dropWhile p s.data with hnil | ⟨c, tl, hcons, hc⟩
    · left
      have : m = [] := by rw [hm]; exact hnil
      have : m' = [] := by
        rw [hm', this]
        simp
      exact this
    · rcases hm'' : m' with _ | ⟨c', tl'⟩
      · exact Or.inl rfl
      · right
        refine ⟨c', tl', rfl, ?_⟩
        have hm_eq : m = c :: tl := by rw [hm]; exact hcons
        have h1 : c' :: (tl' ++ (m.reverse.takeWhile p).reverse) = c :: tl := by
          rw [← List.cons_append, ← hm'', ← hsplit]
          exact hm_eq
        have hcc : c' = c := by
          injection h1
        rw [hcc]
        exact hc
  have hback : (m'.reverse.dropWhile p).reverse = m' := by
    have h2 : m'.reverse = m.reverse.dropWhile p := by rw [hm']; simp
    rw [h2, dropWhile_dropWhile_self]
  rw [hfront, hback]

theorem jsonLoads_empty : jsonLoads ("") = Option.none := rfl

theorem pyStrip_empty : pyStrip ("") = ("") := rfl

theorem firstJson_cons_parsed {c : String} {v : PyVal} (tl : List String)
    (h : jsonLoads (pyStrip c) = some v) : firstJson (c :: tl) = some v := by
  have hne : ¬ pyStrip c = ("") := by
    intro he
    rw [he, jsonLoads_empty] at h
    exact Option.noConfusion h
  simp [firstJson, hne, h]

theorem firstJson_cons_skip {c : String} (tl : List String)
    (h : jsonLoads (pyStrip c) = Option.none) : firstJson (c :: tl) = firstJson tl := by
  by_cases he : pyStrip c = ("") <;> simp [firstJson, he, h]

/-- C1: the `EntityExtractor` recoverer tries the stripped full response
first, then the fenced code blocks, then the brace span, in that order
(conjuncts 1 and 2); on the specification's fenced example the full
response does not parse, the fenced strategy produces exactly the JSON
record, and recovery yields `{"entities": []}`; on `no valid data` recovery
yields none (conjuncts 3 and 4).  Conjunct 5 exhibits the bug in the
sibling recoverer `RAGAnythingEntityExtractor._parse_json_response`: its
raw-string patterns demand literal backslashes, so both fallback strategies
produce no candidate on the very same input and recovery returns none. -/
theorem C1_response_recovery :
    (∀ r v, jsonLoads (pyStrip r) = some v → parse_llm_response r = some v) ∧
      (∀ r, r ≠ ("") → jsonLoads (pyStrip r) = Option.none →
        parse_llm_response r = firstJson (fenceMatches r ++ braceMatches r)) ∧
      (jsonLoads (pyStrip fencedExample) = Option.none ∧
        fenceMatches fencedExample = [("\x7b\"entities\":[]\x7d\n")] ∧
        parse_llm_response fencedExample =
          some (PyVal.dict [(("entities"), PyVal.list [])])) ∧
      parse_llm_response ("no valid data") = Option.none ∧
      (parse_json_response fencedExample = Option.none ∧
        raFenceMatches fencedExample = [] ∧ raBraceMatches fencedExample = []) := by
  refine ⟨?_, ?_, ⟨rfl, rfl, rfl⟩, rfl, ⟨rfl, rfl, rfl⟩⟩
  · intro r v h
    have hr : ¬ r = ("") := by
      intro he
      rw [he, pyStrip_empty, jsonLoads_empty] at h
      exact Option.noConfusion h
    show (if r = ("") then Option.none
      else firstJson ([pyStrip r] ++ fenceMatches r ++ braceMatches r)) = some v
    rw [if_neg hr]
    show firstJson (pyStrip r :: (fenceMatches r ++ braceMatches r)) = some v
    exact firstJson_cons_parsed _ (by rw [pyStrip_idem]; exact h)
  · intro r hr h
    show (if r = ("") then Option.none
      else firstJson ([pyStrip r] ++ fenceMatches r ++ braceMatches r)) = _
    rw [if_neg hr]
    show firstJson (pyStrip r :: (fenceMatches r ++ braceMatches r)) = _
    exact firstJson_cons_skip _ (by rw [pyStrip_idem]; exact h)

/-- Witness for C1: the ordering conjuncts applied at concrete inputs. -/
theorem C1_response_recovery_witness :
    parse_llm_response ("\x7b\x7d") = some (PyVal.dict []) ∧
      parse_llm_response ("xx") = firstJson (fenceMatches ("xx") ++ braceMatches ("xx")) :=
  ⟨C1_response_recovery.1 ("\x7b\x7d") (PyVal.dict []) rfl,
   C1_response_recovery.2.1 ("xx") (by decide) rfl⟩

/-! ### C2 — merging adjacent short text blocks -/

/-- A 50/80/300-character text for the merge scenarios. -/
def manyChars (c : Char) (n : Nat) : String := String.mk (List.replicate n c)

/-- A plain text content block. -/
def textBlock (t : String) : PyVal :=
  PyVal.dict [(("type"), PyVal.str ("text")), (("text"), PyVal.str t)]

def t50 : String := manyChars 'a' 50

def t80 : String := manyChars 'b' 80

def t300 : String := manyChars 'c' 300

/-- The merged units for the two-block sequence (lengths 50 and 80) after
classification assigned the block indices. -/
def mergePair : List PyDict :=
  merge_text_blocks (classifyEnum (pyEnum [textBlock t50, textBlock t80])).1

/-- The merged units for the three-block sequence 300/50/80. -/
def mergeTriple : List PyDict :=
  merge_text_blocks (classifyEnum (pyEnum [textBlock t300, textBlock t50, textBlock t80])).1

set_option maxRecDepth 8192 in
/-- C2, counterexample.  Two adjacent text blocks of trimmed lengths 50 and
80 heading the sequence merge into one unit, but its subsumed-index list
`merged_blocks` is `[1]`: it does not contain the first block's index 0
(that index survives only as the unit's own `block_index`).  And when the
pair is preceded by another text block, all three fold into one unit whose
text is not the claimed two-block concatenation. -/
theorem C2_counterexample_subsumed_indices :
    (mergePair.map fun u => dictGet u ("merged_blocks")) =
        [some (PyVal.list [PyVal.int 1])] ∧
      (mergePair.map fun u => dictGet u ("block_index")) = [some (PyVal.int 0)] ∧
      ¬ (PyVal.int 0 ∈ [PyVal.int 1]) ∧
      (mergeTriple.map fun u => dGetStr u ("text") ("")) =
        [t300 ++ ("\n") ++ t50 ++ ("\n") ++ t80] ∧
      ¬ (t300 ++ ("\n") ++ t50 ++ ("\n") ++ t80 = t50 ++ ("\n") ++ t80) := by
  refine ⟨rfl, rfl, ?_, rfl, ?_⟩
  · simp
  · intro h
    have := congrArg String.length h
    revert this
    decide

theorem mergeGo_cons_none (b : PyDict) (bs : List PyDict) :
    mergeGo Option.none (b :: bs) = mergeGo (some b) bs := rfl

theorem mergeGo_cons_some_lt (c b : PyDict) (bs : List PyDict)
    (h : (pyStrip (dGetStr b ("text") (""))).length < 200) :
    mergeGo (some c) (b :: bs) = mergeGo (some (mergeAbsorb c b)) bs := by
  simp [mergeGo, h]

theorem mergeGo_nil_some (c : PyDict) : mergeGo (some c) [] = [c] := rfl

theorem mergeAbsorb_text (c b : PyDict) :
    dictGet (mergeAbsorb c b) ("text") =
      some (PyVal.str (dGetStr c ("text") ("") ++ ("\n") ++ pyStrip (dGetStr b ("text") ("")))) := by
  unfold mergeAbsorb
  rw [dictGet_dset_ne _ _ _ _ (by decide), dictGet_dset_self]

theorem mergeAbsorb_merged_none (c b : PyDict)
    (h : dictGet c ("merged_blocks") = Option.none) :
    dictGet (mergeAbsorb c b) ("merged_blocks") =
      some (PyVal.list [dGetD b ("block_index") (PyVal.int (-1))]) := by
  unfold mergeAbsorb
  rw [dictGet_dset_self, h]
  rfl

theorem mergeAbsorb_merged_list (c b : PyDict) (l : List PyVal)
    (h : dictGet c ("merged_blocks") = some (PyVal.list l)) :
    dictGet (mergeAbsorb c b) ("merged_blocks") =
      some (PyVal.list (l ++ [dGetD b ("block_index") (PyVal.int (-1))])) := by
  unfold mergeAbsorb
  rw [dictGet_dset_self, h]

theorem mergeAbsorb_other (c b : PyDict) (key : String)
    (h1 : key ≠ ("text")) (h2 : key ≠ ("merged_blocks")) :
    dictGet (mergeAbsorb c b) key = dictGet c key := by
  unfold mergeAbsorb
  rw [dictGet_dset_ne _ _ _ _ h2, dictGet_dset_ne _ _ _ _ h1]

/-- C2, amended.  When the first of the two adjacent short blocks starts a
fresh accumulator (it heads the text sequence), the pair merges into the
single unit `mergeAbsorb b1 b2`: its text is the first block's text, a
newline, and the second block's trimmed text; its subsumed-index list
records only the absorbed second block's index, while the first block's
index is carried as the unit's own `block_index`.  When an accumulator
already exists (any preceding text block `b0`), both blocks are absorbed
into it: the unit's text is the accumulator text followed by both trimmed
texts, and its subsumed-index list then contains both indices. -/
theorem C2_merge_adjacent_short_blocks :
    (∀ (b1 b2 : PyDict) (t1 t2 : String),
      dictGet b1 ("text") = some (PyVal.str t1) →
      dictGet b2 ("text") = some (PyVal.str t2) →
      (pyStrip t1).length = 50 →
      (pyStrip t2).length = 80 →
      dictGet b1 ("merged_blocks") = Option.none →
      merge_text_blocks [b1, b2] = [mergeAbsorb b1 b2] ∧
        dictGet (mergeAbsorb b1 b2) ("text") =
          some (PyVal.str (t1 ++ ("\n") ++ pyStrip t2)) ∧
        dictGet (mergeAbsorb b1 b2) ("merged_blocks") =
          some (PyVal.list [dGetD b2 ("block_index") (PyVal.int (-1))]) ∧
        dictGet (mergeAbsorb b1 b2) ("block_index") = dictGet b1 ("block_index")) ∧
    (∀ (b0 b1 b2 : PyDict) (t0 t1 t2 : String),
      dictGet b0 ("text") = some (PyVal.str t0) →
      dictGet b1 ("text") = some (PyVal.str t1) →
      dictGet b2 ("text") = some (PyVal.str t2) →
      (pyStrip t1).length = 50 →
      (pyStrip t2).length = 80 →
      dictGet b0 ("merged_blocks") = Option.none →
      merge_text_blocks [b0, b1, b2] = [mergeAbsorb (mergeAbsorb b0 b1) b2] ∧
        dictGet (mergeAbsorb (mergeAbsorb b0 b1) b2) ("text") =
          some (PyVal.str (t0 ++ ("\n") ++ pyStrip t1 ++ ("\n") ++ pyStrip t2)) ∧
        dictGet (mergeAbsorb (mergeAbsorb b0 b1) b2) ("merged_blocks") =
          some (PyVal.list [dGetD b1 ("block_index") (PyVal.int (-1)),
            dGetD b2 ("block_index") (PyVal.int (-1))]) ∧
        dictGet (mergeAbsorb (mergeAbsorb b0 b1) b2) ("block_index") =
          dictGet b0 ("block_index")) := by
  constructor
  · intro b1 b2 t1 t2 h1 h2 hl1 hl2 hmb
    have hg1 : dGetStr b1 ("text") ("") = t1 := by simp [dGetStr, h1]
    have hg2 : dGetStr b2 ("text") ("") = t2 := by simp [dGetStr, h2]
    have hc2 : (pyStrip (dGetStr b2 ("text") (""))).length < 200 := by
      rw [hg2, hl2]; omega
    refine ⟨?_, ?_, mergeAbsorb_merged_none _ _ hmb, mergeAbsorb_other _ _ _ (by decide) (by decide)⟩
    · show mergeGo Option.none [b1, b2] = _
      rw [mergeGo_cons_none, mergeGo_cons_some_lt _ _ _ hc2, mergeGo_nil_some]
    · rw [mergeAbsorb_text, hg1, hg2]
  · intro b0 b1 b2 t0 t1 t2 h0 h1 h2 hl1 hl2 hmb0
    have hg0 : dGetStr b0 ("text") ("") = t0 := by simp [dGetStr, h0]
    have hg1 : dGetStr b1 ("text") ("") = t1 := by simp [dGetStr, h1]
    have hg2 : dGetStr b2 ("text") ("") = t2 := by simp [dGetStr, h2]
    have hc1 : (pyStrip (dGetStr b1 ("text") (""))).length < 200 := by
      rw [hg1, hl1]; omega
    have hc2 : (pyStrip (dGetStr b2 ("text") (""))).length < 200 := by
      rw [hg2, hl2]; omega
    have htext01 : dGetStr (mergeAbsorb b0 b1) ("text") ("") = t0 ++ ("\n") ++ pyStrip t1 := by
      unfold dGetStr
      rw [mergeAbsorb_text, hg0, hg1]
    refine ⟨?_, ?_, ?_, ?_⟩
    · show mergeGo Option.none [b0, b1, b2] = _
      rw [mergeGo_cons_none, mergeGo_cons_some_lt _ _ _ hc1,
        mergeGo_cons_some_lt _ _ _ hc2, mergeGo_nil_some]
    · rw [mergeAbsorb_text, htext01, hg2]
    · rw [mergeAbsorb_merged_list _ _ _ (mergeAbsorb_merged_none _ _ hmb0)]
      simp
    · rw [mergeAbsorb_other _ _ _ (by decide) (by decide),
        mergeAbsorb_other _ _ _ (by decide) (by decide)]

/-- The two concrete indexed blocks of the witness scenario. -/
def cb50 : PyDict :=
  [(("type"), PyVal.str ("text")), (("text"), PyVal.str t50), (("block_index"), PyVal.int 0)]

/-- The second concrete indexed block of the witness scenario. -/
def cb80 : PyDict :=
  [(("type"), PyVal.str ("text")), (("text"), PyVal.str t80), (("block_index"), PyVal.int 1)]

/-- Witness for C2: the amended statement applied to two concrete indexed
blocks of trimmed lengths 50 and 80. -/
theorem C2_merge_adjacent_short_blocks_witness :
    merge_text_blocks [cb50, cb80] = [mergeAbsorb cb50 cb80] :=
  (C2_merge_adjacent_short_blocks.1 cb50 cb80 t50 t80 rfl rfl (by decide) (by decide) rfl).1

/-! ### C4 — the statistics invariant -/

/-- The §3 invariant: the statistics totals equal the lengths of the
entity and relationship sequences. -/
def statsOk (r : ExtractionResult) : Prop :=
  dictGet r.statistics ("total_entities") = some (PyVal.int r.entities.length) ∧
    dictGet r.statistics ("total_relationships") = some (PyVal.int r.relationships.length)

theorem ee_stats_invariant (oracle : Oracle) (eps : List (Nat × PyVal)) (flag : Bool)
    (r : ExtractionResult) (ps : List Prompt)
    (h : eeExtractEnum oracle eps flag = Except.ok (r, ps)) : statsOk r := by
  unfold eeExtractEnum eeAssemble at h
  dsimp only at h
  split at h
  · exact absurd h (by simp)
  · rw [Except.ok.injEq, Prod.mk.injEq] at h
    obtain ⟨hr, -⟩ := h
    rw [← hr]
    constructor <;> simp [dictGet]

theorem ra_stats_invariant (oracle : Oracle) (eps : List (Nat × PyVal)) (flag : Bool) :
    statsOk (raExtractEnum oracle eps flag).1 := by
  constructor <;> simp [raExtractEnum, dictGet]

theorem lr_stats_invariant (mdhash : String → Except String String)
    (lrx : PyDict → Except String (List (List PyVal))) (cl : List PyVal) :
    statsOk (lr_extract_entities_from_content_list mdhash lrx cl) ∨
      ∃ e, lr_convert_to_lightrag_chunks mdhash cl = Except.error e ∧
        lr_extract_entities_from_content_list mdhash lrx cl = errorResult e := by
  cases h : lr_convert_to_lightrag_chunks mdhash cl with
  | error e =>
      right
      exact ⟨e, rfl, by simp only [lr_extract_entities_from_content_list, h]⟩
  | ok chunks =>
      left
      constructor <;> simp [lr_extract_entities_from_content_list, h, dictGet]

/-- C4: in every variant, a non-error result carries
`total_entities = len(entities)` and `total_relationships =
len(relationships)`; a pipeline-level failure instead produces the
error-shaped result: empty sequences and a statistics dict holding the
single `error` field. -/
theorem C4_result_statistics :
    (∀ (oracle : Oracle) (cl : List PyVal) (flag : Bool) r ps,
        extract_entities_from_content_list oracle cl flag = Except.ok (r, ps) → statsOk r) ∧
      (∀ (oracle : Oracle) (cl : List PyVal),
        statsOk (extract_entities_sync oracle cl) ∨
          ∃ e, extract_entities_sync oracle cl = errorResult e) ∧
      (∀ (oracle : Oracle) (cl : List PyVal) (flag : Bool),
        statsOk (ra_extract_entities_from_content_list oracle cl flag).1) ∧
      (∀ (mdhash : String → Except String String)
          (lrx : PyDict → Except String (List (List PyVal))) (cl : List PyVal),
        statsOk (lr_extract_entities_from_content_list mdhash lrx cl) ∨
          ∃ e, lr_extract_entities_from_content_list mdhash lrx cl = errorResult e) ∧
      (∀ e, (errorResult e).entities = [] ∧ (errorResult e).relationships = [] ∧
        (errorResult e).statistics = [(("error"), PyVal.str e)]) := by
  refine ⟨?_, ?_, ?_, ?_, fun e => ⟨rfl, rfl, rfl⟩⟩
  · intro oracle cl flag r ps h
    exact ee_stats_invariant oracle (pyEnum cl) flag r ps h
  · intro oracle cl
    cases h : extract_entities_from_content_list oracle cl true with
    | ok rp =>
        left
        have h2 : extract_entities_sync oracle cl = rp.1 := by
          simp only [extract_entities_sync, h]
        rw [h2]
        exact ee_stats_invariant oracle (pyEnum cl) true rp.1 rp.2
          (by rw [show eeExtractEnum oracle (pyEnum cl) true =
              extract_entities_from_content_list oracle cl true from rfl, h])
    | error e =>
        right
        exact ⟨e, by simp only [extract_entities_sync, h]⟩
  · intro oracle cl flag
    exact ra_stats_invariant oracle (pyEnum cl) flag
  · intro mdhash lrx cl
    rcases lr_stats_invariant mdhash lrx cl with h | ⟨e, -, h2⟩
    · exact Or.inl h
    · exact Or.inr ⟨e, h2⟩

/-- Witness for C4: the hypothesis-bearing conjunct applied at the empty
content list under the always-failing oracle, whose run evaluates to a
concrete ok-result. -/
theorem C4_result_statistics_witness :
    statsOk
      { entities := []
        relationships := []
        document_analysis := PyVal.dict []
        statistics :=
          [(("total_entities"), PyVal.int 0),
           (("total_relationships"), PyVal.int 0),
           (("text_blocks_processed"), PyVal.int 0),
           (("table_blocks_processed"), PyVal.int 0)] } :=
  C4_result_statistics.1 (fun _ => Option.none) [] true _ [] rfl

/-! ### C9 — the in-place `block_index` frame effect -/

theorem mutated_get? (cl : List PyVal) (i k : Nat) :
    ((enumFrom i cl).map fun p => blockIndexItem p.1 p.2).get? k =
      (cl.get? k).map fun v => blockIndexItem (i + k) v := by
  induction cl generalizing i k with
  | nil => simp [enumFrom]
  | cons v tl ih =>
      cases k with
      | zero => simp [enumFrom]
      | succ k =>
          simp only [enumFrom, List.map_cons, List.get?_cons_succ, ih (i + 1) k]
          have harith : i + 1 + k = i + (k + 1) := by omega
          rw [harith]

/-- Agreement of two dicts on every key other than `text` and
`merged_blocks` (the only keys the merger writes, on its copies). -/
def agreesOutside (u b : PyDict) : Prop :=
  ∀ key, key ≠ ("text") → key ≠ ("merged_blocks") → dictGet u key = dictGet b key

theorem agreesOutside_rfl (u : PyDict) : agreesOutside u u := fun _ _ _ => rfl

theorem agreesOutside_trans {a b c : PyDict} (h1 : agreesOutside a b)
    (h2 : agreesOutside b c) : agreesOutside a c :=
  fun key hk1 hk2 => (h1 key hk1 hk2).trans (h2 key hk1 hk2)

theorem mergeGo_copies (bs : List PyDict) :
    ∀ (cur : Option PyDict) (u : PyDict), u ∈ mergeGo cur bs →
      (∃ c, cur = some c ∧ agreesOutside u c) ∨ ∃ b ∈ bs, agreesOutside u b := by
  induction bs with
  | nil =>
      intro cur u hu
      cases cur with
      | none => simp [mergeGo] at hu
      | some c =>
          left
          refine ⟨c, rfl, ?_⟩
          have : u = c := by simpa [mergeGo] using hu
          rw [this]
          exact agreesOutside_rfl c
  | cons b bs ih =>
      intro cur u hu
      cases cur with
      | none =>
          rw [mergeGo_cons_none] at hu
          rcases ih (some b) u hu with ⟨c, hc, hag⟩ | ⟨b', hb', hag⟩
          · right
            refine ⟨b, List.mem_cons_self b bs, ?_⟩
            obtain rfl := Option.some.inj hc
            exact hag
          · exact Or.inr ⟨b', List.mem_cons_of_mem b hb', hag⟩
      | some c =>
          by_cases hlt : (pyStrip (dGetStr b ("text") (""))).length < 200
          · rw [mergeGo_cons_some_lt _ _ _ hlt] at hu
            rcases ih (some (mergeAbsorb c b)) u hu with ⟨c', hc', hag⟩ | ⟨b', hb', hag⟩
            · left
              refine ⟨c, rfl, agreesOutside_trans ?_
                (fun key hk1 hk2 => mergeAbsorb_other c b key hk1 hk2)⟩
              obtain rfl := Option.some.inj hc'
              exact hag
            · exact Or.inr ⟨b', List.mem_cons_of_mem b hb', hag⟩
          · have : mergeGo (some c) (b :: bs) = c :: mergeGo (some b) bs := by
              simp [mergeGo, hlt]
            rw [this] at hu
            rcases List.mem_cons.1 hu with rfl | hu'
            · exact Or.inl ⟨u, rfl, agreesOutside_rfl u⟩
            · rcases ih (some b) u hu' with ⟨c', hc', hag⟩ | ⟨b', hb', hag⟩
              · right
                refine ⟨b, List.mem_cons_self b bs, ?_⟩
                obtain rfl := Option.some.inj hc'
                exact hag
              · exact Or.inr ⟨b', List.mem_cons_of_mem b hb', hag⟩

/-- C9: after a pipeline run the caller's content list has exactly its
original length and order; every non-dict element is untouched; every dict
element has gained (only) the key `block_index`, set to its position — its
other keys read back unchanged; and every merged unit agrees with some
input text block on every key other than `text` and `merged_blocks`, the
two keys written on the merger's copies (the embedding separates the
mutated list, `mutatedContentList`, from the merger's copies, mirroring
`block.copy()` in the source). -/
theorem C9_content_list_frame :
    (∀ cl : List PyVal, (mutatedContentList (pyEnum cl)).length = cl.length) ∧
      (∀ (cl : List PyVal) (k : Nat),
        (mutatedContentList (pyEnum cl)).get? k = (cl.get? k).map fun v => blockIndexItem k v) ∧
      (∀ (v : PyVal) (i : Nat), isPyDict v = false → blockIndexItem i v = v) ∧
      (∀ (d : PyDict) (i : Nat),
        blockIndexItem i (PyVal.dict d) = PyVal.dict (dset d ("block_index") (PyVal.int i)) ∧
          dictGet (dset d ("block_index") (PyVal.int i)) ("block_index") = some (PyVal.int i) ∧
          ∀ key, key ≠ ("block_index") →
            dictGet (dset d ("block_index") (PyVal.int i)) key = dictGet d key) ∧
      (∀ (bs : List PyDict) (u : PyDict),
        u ∈ merge_text_blocks bs → ∃ b ∈ bs, agreesOutside u b) := by
  have enumFrom_length : ∀ (i : Nat) (l : List PyVal), (enumFrom i l).length = l.length := by
    intro i l
    induction l generalizing i with
    | nil => rfl
    | cons w tl2 ih2 => simp [enumFrom, ih2]
  refine ⟨?_, ?_, ?_, ?_, ?_⟩
  · intro cl
    simp [mutatedContentList, pyEnum, enumFrom_length]
  · intro cl k
    have := mutated_get? cl 0 k
    simpa [mutatedContentList, pyEnum] using this
  · intro v i hv
    cases v <;> simp_all [blockIndexItem, isPyDict]
  · intro d i
    exact ⟨rfl, dictGet_dset_self d _ _, fun key hk => dictGet_dset_ne d _ key _ hk⟩
  · intro bs u hu
    rcases mergeGo_copies bs Option.none u hu with ⟨c, hc, -⟩ | h
    · exact absurd hc (by simp)
    · exact h

/-- Witness for C9: the frame conjuncts applied to a concrete list holding
a dict and a non-dict element. -/
theorem C9_content_list_frame_witness :
    (mutatedContentList (pyEnum [textBlock t50, PyVal.int 7])).get? 1 =
        some (PyVal.int 7) ∧
      blockIndexItem 1 (PyVal.int 7) = PyVal.int 7 ∧
      dictGet (dset [(("text"), PyVal.str t50)] ("block_index") (PyVal.int 0)) ("text") =
        some (PyVal.str t50) := by
  refine ⟨?_, C9_content_list_frame.2.2.1 (PyVal.int 7) 1 rfl, ?_⟩
  · rw [C9_content_list_frame.2.1 [textBlock t50, PyVal.int 7] 1]
    rfl
  · exact ((C9_content_list_frame.2.2.2.1 [(("text"), PyVal.str t50)] 0).2.2 ("text")
      (by decide)).trans rfl

/-! ### C10 — non-dict elements are silently skipped -/

theorem classifyEnum_skip_nondict (e1 e2 : List (Nat × PyVal)) (i : Nat) (x : PyVal)
    (hx : isPyDict x = false) :
    classifyEnum (e1 ++ (i, x) :: e2) = classifyEnum (e1 ++ e2) := by
  induction e1 with
  | nil =>
      simp only [List.nil_append]
      cases x <;> simp_all [classifyEnum, isPyDict]
  | cons p e1 ih =>
      obtain ⟨j, v⟩ := p
      cases v <;> simp [classifyEnum, ih]

/-- The components of a pipeline outcome other than the document analysis
(whose preview window the inserted element occupies). -/
def eeView (rp : ExtractionResult × List Prompt) :
    List PyVal × List PyVal × PyDict × List Prompt :=
  (rp.1.entities, rp.1.relationships, rp.1.statistics, rp.2)

theorem eeAssemble_view (cls : List PyDict × List PyDict) (tx tb : List PyVal × List Prompt)
    (dA1 dA2 : PyVal) (relVal : PyVal) :
    (eeAssemble cls tx tb dA1 relVal).map eeView =
      (eeAssemble cls tx tb dA2 relVal).map eeView := by
  unfold eeAssemble
  cases pyExtendList relVal <;> rfl

theorem eeExtractEnum_skip_nondict (oracle : Oracle) (e1 e2 : List (Nat × PyVal))
    (i : Nat) (x : PyVal) (flag : Bool) (hx : isPyDict x = false) :
    (eeExtractEnum oracle (e1 ++ (i, x) :: e2) flag).map eeView =
      (eeExtractEnum oracle (e1 ++ e2) flag).map eeView := by
  unfold eeExtractEnum
  rw [classifyEnum_skip_nondict e1 e2 i x hx]
  exact eeAssemble_view _ _ _ _ _ _

theorem raLoop_skip_nondict (oracle : Oracle) (e1 e2 : List (Nat × PyVal))
    (i : Nat) (x : PyVal) (hx : isPyDict x = false) :
    raLoop oracle (e1 ++ (i, x) :: e2) = raLoop oracle (e1 ++ e2) := by
  induction e1 with
  | nil =>
      simp only [List.nil_append]
      cases x <;> simp_all [raLoop, isPyDict]
  | cons p e1 ih =>
      obtain ⟨j, v⟩ := p
      cases v <;> simp [raLoop, ih]

theorem lrConvertGo_skip_nondict (mdhash : String → Except String String)
    (e1 e2 : List (Nat × PyVal)) (i : Nat) (x : PyVal) (hx : isPyDict x = false) :
    ∀ acc, lrConvertGo mdhash acc (e1 ++ (i, x) :: e2) = lrConvertGo mdhash acc (e1 ++ e2) := by
  induction e1 with
  | nil =>
      intro acc
      simp only [List.nil_append]
      cases x <;> simp_all [lrConvertGo, isPyDict]
  | cons p e1 ih =>
      intro acc
      obtain ⟨j, v⟩ := p
      cases v <;> simp [lrConvertGo, ih]

/-- C10: a non-dict element of the content list is silently skipped by
every variant — inserting it anywhere in the (enumerated, so that the
surrounding blocks keep their original positions) content list leaves the
classifier's text/table subsequences, the `EntityExtractor` outcome
(entities, relationships, statistics and issued block requests), the
`RAGAnything` loop's entities/relationships/requests, and the `LightRAG`
chunk conversion unchanged, and in particular raises no error. -/
theorem C10_nondict_skipped :
    (∀ (e1 e2 : List (Nat × PyVal)) (i : Nat) (x : PyVal), isPyDict x = false →
        classifyEnum (e1 ++ (i, x) :: e2) = classifyEnum (e1 ++ e2)) ∧
      (∀ (oracle : Oracle) (e1 e2 : List (Nat × PyVal)) (i : Nat) (x : PyVal) (flag : Bool),
        isPyDict x = false →
        (eeExtractEnum oracle (e1 ++ (i, x) :: e2) flag).map eeView =
          (eeExtractEnum oracle (e1 ++ e2) flag).map eeView) ∧
      (∀ (oracle : Oracle) (e1 e2 : List (Nat × PyVal)) (i : Nat) (x : PyVal),
        isPyDict x = false →
        raLoop oracle (e1 ++ (i, x) :: e2) = raLoop oracle (e1 ++ e2)) ∧
      (∀ (mdhash : String → Except String String) (e1 e2 : List (Nat × PyVal))
          (i : Nat) (x : PyVal) (acc : PyDict), isPyDict x = false →
        lrConvertGo mdhash acc (e1 ++ (i, x) :: e2) = lrConvertGo mdhash acc (e1 ++ e2)) :=
  ⟨classifyEnum_skip_nondict,
   fun oracle e1 e2 i x flag hx => eeExtractEnum_skip_nondict oracle e1 e2 i x flag hx,
   raLoop_skip_nondict,
   fun mdhash e1 e2 i x acc hx => lrConvertGo_skip_nondict mdhash e1 e2 i x hx acc⟩

/-- Witness for C10: a `None` element inserted in front of a text block
changes nothing for any variant. -/
theorem C10_nondict_skipped_witness :
    classifyEnum [(0, PyVal.none), (1, textBlock t50)] = classifyEnum [(1, textBlock t50)] ∧
      raLoop (fun _ => Option.none) [(0, PyVal.none), (1, textBlock t50)] =
        raLoop (fun _ => Option.none) [(1, textBlock t50)] :=
  ⟨C10_nondict_skipped.1 [] [(1, textBlock t50)] 0 PyVal.none rfl,
   C10_nondict_skipped.2.2.1 (fun _ => Option.none) [] [(1, textBlock t50)] 0 PyVal.none rfl⟩

/-! ### C8 — the minimum-length filter -/

theorem textUnitEntities_prompts (oracle : Oracle) (b : PyDict) :
    (textUnitEntities oracle b).2 =
      [Prompt.text_entity_extraction (pyStrip (dGetStr b ("text") ("")))] := by
  unfold textUnitEntities
  dsimp only
  split
  · split
    · rfl
    · rfl
  · rfl

theorem textUnitEntities_entities (oracle : Oracle) (b : PyDict) (e : PyVal)
    (he : e ∈ (textUnitEntities oracle b).1) :
    ∃ ed, e = PyVal.dict ed ∧
      dictGet ed ("source_block") = some (dGetD b ("block_index") (PyVal.int (-1))) := by
  unfold textUnitEntities at he
  dsimp only at he
  split at he
  · split at he
    · rename_i es heq
      by_cases hall : es.all isPyDict
      · rw [if_pos hall] at he
        simp only at he
        obtain ⟨e0, he0, rfl⟩ := List.mem_map.1 he
        have hd : isPyDict e0 = true := List.all_eq_true.1 hall e0 he0
        obtain ⟨ed0, rfl⟩ : ∃ d, e0 = PyVal.dict d := by
          cases e0 <;> simp_all [isPyDict]
        refine ⟨_, rfl, ?_⟩
        show dictGet (dset (dset (dset ed0 ("source_block") _) ("source_page") _)
          ("source_type") _) ("source_block") = _
        rw [dictGet_dset_ne _ _ _ _ (by decide), dictGet_dset_ne _ _ _ _ (by decide),
          dictGet_dset_self]
      · rw [if_neg hall] at he
        simp at he
    · simp at he
  · simp at he

theorem textEntitiesGo_short_skipped (oracle : Oracle) (units : List PyDict) :
    (∀ p ∈ (textEntitiesGo oracle units).2,
        ∃ c, p = Prompt.text_entity_extraction c ∧ 10 ≤ c.length) ∧
      (∀ e ∈ (textEntitiesGo oracle units).1,
        ∃ u ∈ units, 10 ≤ (pyStrip (dGetStr u ("text") (""))).length ∧
          ∃ ed, e = PyVal.dict ed ∧
            dictGet ed ("source_block") = some (dGetD u ("block_index") (PyVal.int (-1)))) := by
  induction units with
  | nil => exact ⟨fun p hp => absurd hp (by simp [textEntitiesGo]), fun e he => absurd he (by simp [textEntitiesGo])⟩
  | cons b bs ih =>
      by_cases hlen : (pyStrip (dGetStr b ("text") (""))).length < 10
      · have hgo : textEntitiesGo oracle (b :: bs) = textEntitiesGo oracle bs := by
          simp [textEntitiesGo, hlen]
        constructor
        · intro p hp
          rw [hgo] at hp
          exact ih.1 p hp
        · intro e he
          rw [hgo] at he
          obtain ⟨u, hu, h⟩ := ih.2 e he
          exact ⟨u, List.mem_cons_of_mem b hu, h⟩
      · have hgo : textEntitiesGo oracle (b :: bs) =
            ((textUnitEntities oracle b).1 ++ (textEntitiesGo oracle bs).1,
             (textUnitEntities oracle b).2 ++ (textEntitiesGo oracle bs).2) := by
          simp [textEntitiesGo, hlen]
        constructor
        · intro p hp
          rw [hgo] at hp
          rcases List.mem_append.1 hp with hp1 | hp2
          · rw [textUnitEntities_prompts] at hp1
            rcases List.mem_singleton.1 hp1 with rfl
            exact ⟨_, rfl, by omega⟩
          · exact ih.1 p hp2
        · intro e he
          rw [hgo] at he
          rcases List.mem_append.1 he with he1 | he2
          · obtain ⟨ed, hed, hsb⟩ := textUnitEntities_entities oracle b e he1
            exact ⟨b, List.mem_cons_self b bs, by omega, ed, hed, hsb⟩
          · obtain ⟨u, hu, h⟩ := ih.2 e he2
            exact ⟨u, List.mem_cons_of_mem b hu, h⟩

/-- C8, amended: the 10-character minimum applies to the *merged units*,
not to the original blocks.  In the `EntityExtractor` pipeline every
extraction request carries unit text of at least 10 characters, and every
extracted text entity stems from a merged unit of at least 10 characters,
carrying that unit's `block_index` as its source; a sub-10 block can still
reach extraction inside a larger merged unit (see the counterexample).  In
the `RAGAnything` pipeline, which does not merge, every individual text
block with trimmed length below 10 is dropped: no request is issued and
nothing is recovered. -/
theorem C8_min_length_filter :
    (∀ (oracle : Oracle) (tbs : List PyDict) (p : Prompt),
        p ∈ (extract_text_entities oracle tbs).2 →
        ∃ c, p = Prompt.text_entity_extraction c ∧ 10 ≤ c.length) ∧
      (∀ (oracle : Oracle) (tbs : List PyDict) (e : PyVal),
        e ∈ (extract_text_entities oracle tbs).1 →
        ∃ u ∈ merge_text_blocks tbs, 10 ≤ (pyStrip (dGetStr u ("text") (""))).length ∧
          ∃ ed, e = PyVal.dict ed ∧
            dictGet ed ("source_block") = some (dGetD u ("block_index") (PyVal.int (-1)))) ∧
      (∀ (oracle : Oracle) (item : PyDict),
        (pyStrip (dGetStr item ("text") (""))).length < 10 →
        ra_process_text_content oracle item = (Option.none, [])) := by
  refine ⟨?_, ?_, ?_⟩
  · intro oracle tbs p hp
    exact (textEntitiesGo_short_skipped oracle (merge_text_blocks tbs)).1 p hp
  · intro oracle tbs e he
    exact (textEntitiesGo_short_skipped oracle (merge_text_blocks tbs)).2 e he
  · intro oracle item hlen
    simp [ra_process_text_content, hlen]

/-- A completion holding one entity, parseable by strategy 1. -/
def entJson : String := ("\x7b\"entities\": [\x7b\"name\": \"E\"\x7d]\x7d")

/-- An oracle answering every text-extraction request with `entJson` and
failing everything else. -/
def textOracle : Oracle := fun p =>
  match p with
  | .text_entity_extraction _ => some entJson
  | _ => Option.none

/-- A 5-character text block followed by a 100-character text block. -/
def shortLongList : List PyVal :=
  [textBlock ("abcde"), textBlock (manyChars 'x' 100)]

set_option maxRecDepth 16384 in
/-- C8, counterexample: the 5-character block `abcde` (trimmed length 5 <
10) heads the merged unit, so an extraction request containing its text is
issued and the recovered entity carries the short block's index 0 as
`source_block` — the block is neither dropped before extraction nor free of
entities attributed to it. -/
theorem C8_counterexample_short_block_extracted :
    (pyStrip ("abcde")).length < 10 ∧
      extract_entities_from_content_list textOracle shortLongList true =
        Except.ok
          ({ entities := [PyVal.dict [(("name"), PyVal.str ("E")),
                (("source_block"), PyVal.int 0), (("source_page"), PyVal.int 0),
                (("source_type"), PyVal.str ("text"))]]
             relationships := []
             document_analysis := PyVal.dict []
             statistics := [(("total_entities"), PyVal.int 1),
               (("total_relationships"), PyVal.int 0),
               (("text_blocks_processed"), PyVal.int 2),
               (("table_blocks_processed"), PyVal.int 0)] },
           [Prompt.text_entity_extraction (("abcde") ++ ("\n") ++ manyChars 'x' 100)]) :=
  ⟨by decide, rfl⟩

/-- Witness for C8: the per-block drop of the `RAGAnything` pipeline on a
3-character block, and the length bound on a concrete issued request. -/
theorem C8_min_length_filter_witness :
    ra_process_text_content (fun _ => Option.none) [(("text"), PyVal.str ("abc"))] =
        (Option.none, []) ∧
      ∃ c, Prompt.text_entity_extraction (pyStrip t50) = Prompt.text_entity_extraction c ∧
        10 ≤ c.length :=
  ⟨C8_min_length_filter.2.2 (fun _ => Option.none) [(("text"), PyVal.str ("abc"))] (by decide),
   C8_min_length_filter.1 (fun _ => Option.none) [[(("text"), PyVal.str t50)]]
     (Prompt.text_entity_extraction (pyStrip t50))
     (by rw [show (extract_text_entities (fun _ => Option.none) [[(("text"), PyVal.str t50)]]).2 =
           [Prompt.text_entity_extraction (pyStrip t50)] from rfl]
         exact List.mem_singleton_self _)⟩

/-! ### C7 — the alternative pipeline implementations -/

/-- An oracle answering every request with the one-entity completion. -/
def allEntOracle : Oracle := fun _ => some entJson

/-- Two text blocks of 5 and 6 characters. -/
def twoShortBlocks : List PyVal := [textBlock ("abcde"), textBlock ("fghijk")]

set_option maxRecDepth 16384 in
/-- C7, counterexample: under one fixed service behaviour (every request is
answered with the same one-entity JSON), the `EntityExtractor` pipeline
merges the two short blocks into a 12-character unit and extracts one
entity, while the `RAGAnything` pipeline drops both blocks individually and
extracts none — the variants are not functionally equivalent. -/
theorem C7_counterexample_variants_differ :
    (extract_entities_sync allEntOracle twoShortBlocks).entities.length = 1 ∧
      (ra_extract_entities_from_content_list allEntOracle twoShortBlocks true).1.entities.length = 0 ∧
      (extract_entities_sync allEntOracle twoShortBlocks).entities ≠
        (ra_extract_entities_from_content_list allEntOracle twoShortBlocks true).1.entities := by
  refine ⟨rfl, rfl, fun h => ?_⟩
  have := congrArg List.length h
  rw [show (extract_entities_sync allEntOracle twoShortBlocks).entities.length = 1 from rfl,
    show (ra_extract_entities_from_content_list allEntOracle twoShortBlocks true).1.entities.length = 0
      from rfl] at this
  exact Nat.noConfusion this

theorem ee_sync_stats (oracle : Oracle) (cl : List PyVal) :
    statsOk (extract_entities_sync oracle cl) ∨
      ∃ e, extract_entities_sync oracle cl = errorResult e := by
  cases h : extract_entities_from_content_list oracle cl true with
  | ok rp =>
      left
      have h2 : extract_entities_sync oracle cl = rp.1 := by
        simp only [extract_entities_sync, h]
      rw [h2]
      exact ee_stats_invariant oracle (pyEnum cl) true rp.1 rp.2
        (by rw [show eeExtractEnum oracle (pyEnum cl) true =
            extract_entities_from_content_list oracle cl true from rfl, h])
  | error e =>
      right
      exact ⟨e, by simp only [extract_entities_sync, h]⟩

set_option maxRecDepth 16384 in
/-- C7, amended: the implementations do share one component boundary — each
maps a content list (and the external service behaviour) to an
`ExtractionResult` whose statistics totals match its entity and
relationship sequences, with pipeline-level failures mapped to the shared
error shape — but they are not functionally equivalent: there is a content
list and a single fixed service behaviour on which they produce different
entity sequences. -/
theorem C7_pipeline_variants :
    (∀ (oracle : Oracle) (cl : List PyVal),
        statsOk (extract_entities_sync oracle cl) ∨
          ∃ e, extract_entities_sync oracle cl = errorResult e) ∧
      (∀ (oracle : Oracle) (cl : List PyVal) (flag : Bool),
        statsOk (ra_extract_entities_from_content_list oracle cl flag).1) ∧
      (∀ (mdhash : String → Except String String)
          (lrx : PyDict → Except String (List (List PyVal))) (cl : List PyVal),
        statsOk (lr_extract_entities_from_content_list mdhash lrx cl) ∨
          ∃ e, lr_extract_entities_from_content_list mdhash lrx cl = errorResult e) ∧
      (∃ (oracle : Oracle) (cl : List PyVal),
        (extract_entities_sync oracle cl).entities ≠
          (ra_extract_entities_from_content_list oracle cl true).1.entities) := by
  refine ⟨ee_sync_stats, fun oracle cl flag => ra_stats_invariant oracle (pyEnum cl) flag,
    ?_, ⟨allEntOracle, twoShortBlocks, ?_⟩⟩
  · intro mdhash lrx cl
    rcases lr_stats_invariant mdhash lrx cl with h | ⟨e, -, h2⟩
    · exact Or.inl h
    · exact Or.inr ⟨e, h2⟩
  · intro h
    have := congrArg List.length h
    rw [show (extract_entities_sync allEntOracle twoShortBlocks).entities.length = 1 from rfl,
      show (ra_extract_entities_from_content_list allEntOracle twoShortBlocks true).1.entities.length = 0
        from rfl] at this
    exact Nat.noConfusion this

/-! ### C5 — batch success mapping and the dropped failure list -/

theorem chunksGo_flatten (b : Nat) (hb : 0 < b) :
    ∀ (fuel : Nat) (files : List String), files.length ≤ fuel →
      (chunksGo b fuel files).flatten = files := by
  intro fuel
  induction fuel with
  | zero =>
      intro files hf
      rw [List.length_eq_zero.1 (Nat.le_zero.1 hf)]
      rfl
  | succ fuel ih =>
      intro files hf
      cases files with
      | nil => rfl
      | cons f fs =>
          show (((f :: fs).take b :: chunksGo b fuel ((f :: fs).drop b))).flatten = f :: fs
          rw [List.flatten_cons, ih ((f :: fs).drop b)
              (by simp only [List.length_drop, List.length_cons] at hf ⊢; omega),
            List.take_append_drop]

theorem chunksOf_flatten (b : Nat) (files : List String) (hb : 0 < b) :
    (chunksOf b files).flatten = files :=
  chunksGo_flatten b hb files.length files (Nat.le_refl _)

theorem chunksGo_length_le (b : Nat) :
    ∀ (fuel : Nat) (files : List String) (c : List String),
      c ∈ chunksGo b fuel files → c.length ≤ b := by
  intro fuel
  induction fuel with
  | zero =>
      intro files c hc
      cases files <;> simp [chunksGo] at hc
  | succ fuel ih =>
      intro files c hc
      cases files with
      | nil => simp [chunksGo] at hc
      | cons f fs =>
          rcases List.mem_cons.1 hc with rfl | hc'
          · exact List.length_take_le b _
          · exact ih _ c hc'

theorem chunksOf_length_le (b : Nat) (files : List String) (c : List String)
    (hc : c ∈ chunksOf b files) : c.length ≤ b :=
  chunksGo_length_le b files.length files c hc

theorem batchGo_mem (parse : String → Except String (List PyVal)) :
    ∀ (fs : List String) (f : String) (c : List PyVal),
      (f, c) ∈ (batchGo parse fs).1 ↔ f ∈ fs ∧ parse f = Except.ok c := by
  intro fs
  induction fs with
  | nil => intro f c; simp [batchGo]
  | cons g gs ih =>
      intro f c
      cases hg : parse g with
      | ok c0 =>
          constructor
          · intro hm
            have hm' : (f, c) ∈ (g, c0) :: (batchGo parse gs).1 := by
              simpa [batchGo, hg] using hm
            rcases List.mem_cons.1 hm' with heq | hm2
            · obtain ⟨rfl, rfl⟩ := Prod.mk.inj heq
              exact ⟨List.mem_cons_self _ _, hg⟩
            · obtain ⟨h1, h2⟩ := (ih f c).1 hm2
              exact ⟨List.mem_cons_of_mem g h1, h2⟩
          · rintro ⟨hf, hp⟩
            rcases List.mem_cons.1 hf with rfl | hf'
            · rw [hg] at hp
              obtain rfl := Except.ok.inj hp
              simp [batchGo, hg]
            · have := (ih f c).2 ⟨hf', hp⟩
              simp [batchGo, hg, this]
      | error e =>
          constructor
          · intro hm
            have hm2 : (f, c) ∈ (batchGo parse gs).1 := by
              simpa [batchGo, hg] using hm
            obtain ⟨h1, h2⟩ := (ih f c).1 hm2
            exact ⟨List.mem_cons_of_mem g h1, h2⟩
          · rintro ⟨hf, hp⟩
            rcases List.mem_cons.1 hf with rfl | hf'
            · rw [hg] at hp
              exact absurd hp (by simp)
            · have := (ih f c).2 ⟨hf', hp⟩
              simpa [batchGo, hg] using this

theorem batchGo_failed_mem (parse : String → Except String (List PyVal)) :
    ∀ (fs : List String) (f : String),
      f ∈ (batchGo parse fs).2 ↔ f ∈ fs ∧ ∃ e, parse f = Except.error e := by
  intro fs
  induction fs with
  | nil => intro f; simp [batchGo]
  | cons g gs ih =>
      intro f
      cases hg : parse g with
      | ok c0 =>
          constructor
          · intro hm
            have hm2 : f ∈ (batchGo parse gs).2 := by simpa [batchGo, hg] using hm
            obtain ⟨h1, h2⟩ := (ih f).1 hm2
            exact ⟨List.mem_cons_of_mem g h1, h2⟩
          · rintro ⟨hf, e, hp⟩
            rcases List.mem_cons.1 hf with rfl | hf'
            · rw [hg] at hp
              exact absurd hp (by simp)
            · have := (ih f).2 ⟨hf', e, hp⟩
              simpa [batchGo, hg] using this
      | error e0 =>
          constructor
          · intro hm
            have hm' : f ∈ g :: (batchGo parse gs).2 := by simpa [batchGo, hg] using hm
            rcases List.mem_cons.1 hm' with rfl | hm2
            · exact ⟨List.mem_cons_self _ _, e0, hg⟩
            · obtain ⟨h1, h2⟩ := (ih f).1 hm2
              exact ⟨List.mem_cons_of_mem g h1, h2⟩
          · rintro ⟨hf, e, hp⟩
            rcases List.mem_cons.1 hf with rfl | hf'
            · simp [batchGo, hg]
            · have := (ih f).2 ⟨hf', e, hp⟩
              simp [batchGo, hg, this]

/-- The parse oracle of the batch scenario: file `f2` raises, the rest
parse to an empty content list. -/
def failF2 : String → Except String (List PyVal) := fun f =>
  if f = ("f2") then Except.error ("boom") else Except.ok []

/-- The same oracle with a different exception message for `f2`. -/
def failF2v2 : String → Except String (List PyVal) := fun f =>
  if f = ("f2") then Except.error ("other cause") else Except.ok []

/-- C5, counterexample: with file 2's parse raising, the value returned by
`parse_documents_batch` is just the success mapping for files 1 and 3 — it
coincides with the run in which `f2` was never submitted and with the run
in which `f2` failed for a different cause, so the returned value records
neither the failed file's identity nor its error cause; the failure list is
a local variable that is only logged. -/
theorem C5_counterexample_no_failure_record :
    parse_documents_batch failF2 10 [("f1"), ("f2"), ("f3")] = [(("f1"), []), (("f3"), [])] ∧
      parse_documents_batch failF2 10 [("f1"), ("f3")] = [(("f1"), []), (("f3"), [])] ∧
      parse_documents_batch failF2v2 10 [("f1"), ("f2"), ("f3")] = [(("f1"), []), (("f3"), [])] :=
  ⟨rfl, rfl, rfl⟩

/-- C5, amended: the returned mapping contains exactly the successfully
parsed files with their content (so the failed file is absent and its
failure does not prevent any other file, in the same or a later chunk, from
being processed), and the internal `failed_files` list — which is logged
and then discarded, not returned — contains exactly the files whose parse
raised. -/
theorem C5_batch_success_mapping (parse : String → Except String (List PyVal))
    (b : Nat) (files : List String) (hb : 0 < b) :
    (∀ f c, (f, c) ∈ parse_documents_batch parse b files ↔
        f ∈ files ∧ parse f = Except.ok c) ∧
      (∀ f, f ∈ (batchGo parse ((chunksOf b files).flatten)).2 ↔
        f ∈ files ∧ ∃ e, parse f = Except.error e) := by
  constructor
  · intro f c
    unfold parse_documents_batch
    rw [chunksOf_flatten b files hb]
    exact batchGo_mem parse files f c
  · intro f
    rw [chunksOf_flatten b files hb]
    exact batchGo_failed_mem parse files f

/-- Witness for C5: at the concrete three-file scenario, `f1` maps to its
content, and `f2` sits in the internal failure list. -/
theorem C5_batch_success_mapping_witness :
    (("f1"), ([] : List PyVal)) ∈ parse_documents_batch failF2 10 [("f1"), ("f2"), ("f3")] ∧
      ("f2") ∈ (batchGo failF2 ((chunksOf 10 [("f1"), ("f2"), ("f3")]).flatten)).2 :=
  ⟨((C5_batch_success_mapping failF2 10 [("f1"), ("f2"), ("f3")] (by decide)).1 ("f1") []).2
      ⟨by decide, rfl⟩,
   ((C5_batch_success_mapping failF2 10 [("f1"), ("f2"), ("f3")] (by decide)).2 ("f2")).2
      ⟨by decide, ("boom"), rfl⟩⟩

/-! ### C6 — chunked, bounded-worker batch scheduling

`parse_documents_batch` (lines 144–165) runs a sequential `for` loop over
the `range(0, len(file_paths), batch_size)` chunks; each chunk is submitted
to a fresh `with ThreadPoolExecutor(max_workers=max_workers)` block whose
exit — after the `as_completed` loop has consumed every future — joins all
of the chunk's workers before the loop proceeds.  The executor semantics
are modelled by the small-step scheduler `Sched`: pending tasks start in
submission order whenever fewer than `max_workers` tasks are running
(`ThreadPoolExecutor`'s documented bound), running tasks finish in any
order, and the chunk's trace ends only when nothing is pending or running.
A whole batch execution is the concatenation of one such complete trace per
chunk, in chunk order. -/

/-- A scheduling event: a worker picks up a file, or completes it. -/
inductive Ev where
  | start (f : String)
  | finish (f : String)
  deriving DecidableEq

/-- Admissible executions of one chunk (`pending`, `active`, trace). -/
inductive Sched (W : Nat) : List String → List String → List Ev → Prop where
  | done : Sched W [] [] []
  | start {p active : List String} {f : String} {tr : List Ev} :
      active.length < W → Sched W p (active ++ [f]) tr →
      Sched W (f :: p) active (Ev.start f :: tr)
  | finish {p a1 a2 : List String} {f : String} {tr : List Ev} :
      Sched W p (a1 ++ a2) tr → Sched W p (a1 ++ f :: a2) (Ev.finish f :: tr)

/-- A batch execution: the chunks run strictly one after another, each to
completion. -/
inductive ChunkSeq (W : Nat) : List (List String) → List Ev → Prop where
  | nil : ChunkSeq W [] []
  | cons {c : List String} {cs : List (List String)} {tr1 tr2 : List Ev} :
      Sched W c [] tr1 → ChunkSeq W cs tr2 → ChunkSeq W (c :: cs) (tr1 ++ tr2)

/-- The executions of `parse_documents_batch` over `files` with chunk size
`b` and worker bound `W`. -/
def BatchTrace (b W : Nat) (files : List String) (tr : List Ev) : Prop :=
  ChunkSeq W (chunksOf b files) tr

/-- Number of start events in a trace. -/
def startsIn (tr : List Ev) : Nat :=
  (tr.filter fun e => match e with | Ev.start _ => true | Ev.finish _ => false).length

/-- Number of finish events in a trace. -/
def finsIn (tr : List Ev) : Nat :=
  (tr.filter fun e => match e with | Ev.start _ => false | Ev.finish _ => true).length

theorem startsIn_cons_start (f : String) (tr : List Ev) :
    startsIn (Ev.start f :: tr) = startsIn tr + 1 := by
  simp [startsIn, List.filter_cons]

theorem startsIn_cons_finish (f : String) (tr : List Ev) :
    startsIn (Ev.finish f :: tr) = startsIn tr := by
  simp [startsIn, List.filter_cons]

theorem finsIn_cons_start (f : String) (tr : List Ev) :
    finsIn (Ev.start f :: tr) = finsIn tr := by
  simp [finsIn, List.filter_cons]

theorem finsIn_cons_finish (f : String) (tr : List Ev) :
    finsIn (Ev.finish f :: tr) = finsIn tr + 1 := by
  simp [finsIn, List.filter_cons]

theorem startsIn_append (tr1 tr2 : List Ev) :
    startsIn (tr1 ++ tr2) = startsIn tr1 + startsIn tr2 := by
  simp [startsIn, List.filter_append]

theorem finsIn_append (tr1 tr2 : List Ev) :
    finsIn (tr1 ++ tr2) = finsIn tr1 + finsIn tr2 := by
  simp [finsIn, List.filter_append]

theorem sched_start_mem {W : Nat} {p a : List String} {tr : List Ev}
    (h : Sched W p a tr) : ∀ g, Ev.start g ∈ tr → g ∈ p := by
  induction h with
  | done => intro g hg; simp at hg
  | start hlt hs ih =>
      intro g hg
      rcases List.mem_cons.1 hg with heq | hg'
      · obtain rfl := Ev.start.inj heq
        exact List.mem_cons_self _ _
      · exact List.mem_cons_of_mem _ (ih g hg')
  | finish hs ih =>
      intro g hg
      rcases List.mem_cons.1 hg with heq | hg'
      · exact absurd heq (by simp)
      · exact ih g hg'

theorem sched_finish_mem {W : Nat} {p a : List String} {tr : List Ev}
    (h : Sched W p a tr) : ∀ f, f ∈ p ∨ f ∈ a → Ev.finish f ∈ tr := by
  induction h with
  | done =>
      intro f hf
      rcases hf with h | h <;> simp at h
  | start hlt hs ih =>
      intro f hf
      apply List.mem_cons_of_mem
      apply ih
      rcases hf with hf | hf
      · rcases List.mem_cons.1 hf with rfl | hf2
        · exact Or.inr (List.mem_append_right _ (List.mem_singleton_self _))
        · exact Or.inl hf2
      · exact Or.inr (List.mem_append_left _ hf)
  | finish hs ih =>
      intro f' hf'
      rcases hf' with hf' | hf'
      · exact List.mem_cons_of_mem _ (ih f' (Or.inl hf'))
      · rcases List.mem_append.1 hf' with h1 | h2
        · exact List.mem_cons_of_mem _ (ih f' (Or.inr (List.mem_append_left _ h1)))
        · rcases List.mem_cons.1 h2 with rfl | h3
          · exact List.mem_cons_self _ _
          · exact List.mem_cons_of_mem _ (ih f' (Or.inr (List.mem_append_right _ h3)))

theorem sched_start_complete {W : Nat} {p a : List String} {tr : List Ev}
    (h : Sched W p a tr) : ∀ f ∈ p, Ev.start f ∈ tr := by
  induction h with
  | done => intro f hf; simp at hf
  | start hlt hs ih =>
      intro f hf
      rcases List.mem_cons.1 hf with rfl | hf2
      · exact List.mem_cons_self _ _
      · exact List.mem_cons_of_mem _ (ih f hf2)
  | finish hs ih =>
      intro f hf
      exact List.mem_cons_of_mem _ (ih f hf)

theorem sched_counts {W : Nat} {p a : List String} {tr : List Ev}
    (h : Sched W p a tr) : startsIn tr = p.length ∧ finsIn tr = p.length + a.length := by
  induction h with
  | done => exact ⟨rfl, rfl⟩
  | start hlt hs ih =>
      obtain ⟨ih1, ih2⟩ := ih
      constructor
      · rw [startsIn_cons_start, ih1]
        simp only [List.length_cons]
      · rw [finsIn_cons_start, ih2]
        simp only [List.length_append, List.length_cons, List.length_nil]
        omega
  | finish hs ih =>
      obtain ⟨ih1, ih2⟩ := ih
      constructor
      · rw [startsIn_cons_finish, ih1]
      · rw [finsIn_cons_finish, ih2]
        simp only [List.length_append, List.length_cons, List.length_nil]
        omega

theorem sched_bound {W : Nat} {p a : List String} {tr : List Ev}
    (h : Sched W p a tr) : a.length ≤ W →
      ∀ pre suf, tr = pre ++ suf → a.length + startsIn pre ≤ finsIn pre + W := by
  induction h with
  | done =>
      intro hW pre suf htr
      have hpre : pre = [] := by
        cases pre with
        | nil => rfl
        | cons e pre' => simp at htr
      subst hpre
      simp [startsIn, finsIn]
  | start hlt hs ih =>
      intro hW pre suf htr
      cases pre with
      | nil =>
          simp only [startsIn, finsIn, List.filter_nil, List.length_nil, Nat.add_zero,
            Nat.zero_add]
          omega
      | cons e pre' =>
          obtain ⟨he, htr'⟩ := List.cons.inj htr
          subst he
          have ihh := ih (by simp only [List.length_append, List.length_cons, List.length_nil]; omega) pre' suf htr'
          rw [startsIn_cons_start, finsIn_cons_start]
          simp only [List.length_append, List.length_cons, List.length_nil] at ihh
          omega
  | finish hs ih =>
      intro hW pre suf htr
      cases pre with
      | nil =>
          simp only [startsIn, finsIn, List.filter_nil, List.length_nil, Nat.add_zero,
            Nat.zero_add]
          omega
      | cons e pre' =>
          obtain ⟨he, htr'⟩ := List.cons.inj htr
          subst he
          have ihh := ih (by simp only [List.length_append, List.length_cons, List.length_nil] at hW ⊢; omega)
            pre' suf htr'
          rw [startsIn_cons_finish, finsIn_cons_finish]
          simp only [List.length_append, List.length_cons, List.length_nil] at ihh hW ⊢
          omega

theorem chunkSeq_complete {W : Nat} {cs : List (List String)} {tr : List Ev}
    (h : ChunkSeq W cs tr) : ∀ f, f ∈ cs.flatten → Ev.start f ∈ tr ∧ Ev.finish f ∈ tr := by
  induction h with
  | nil => intro f hf; simp at hf
  | cons hs hcs ih =>
      intro f hf
      rw [List.flatten_cons] at hf
      rcases List.mem_append.1 hf with hf1 | hf2
      · exact ⟨List.mem_append_left _ (sched_start_complete hs f hf1),
          List.mem_append_left _ (sched_finish_mem hs f (Or.inl hf1))⟩
      · obtain ⟨h1, h2⟩ := ih f hf2
        exact ⟨List.mem_append_right _ h1, List.mem_append_right _ h2⟩

theorem chunkSeq_bound {W : Nat} {cs : List (List String)} {tr : List Ev}
    (h : ChunkSeq W cs tr) : ∀ pre suf, tr = pre ++ suf → startsIn pre ≤ finsIn pre + W := by
  induction h with
  | nil =>
      intro pre suf htr
      have hpre : pre = [] := by
        cases pre with
        | nil => rfl
        | cons e pre' => simp at htr
      subst hpre
      simp [startsIn, finsIn]
  | cons hs hcs ih =>
      intro pre suf htr
      rcases List.append_eq_append_iff.1 htr with ⟨w, hw1, hw2⟩ | ⟨w, hw1, hw2⟩
      · subst hw1
        obtain ⟨hc1, hc2⟩ := sched_counts hs
        have := ih w suf hw2
        rw [startsIn_append, finsIn_append, hc1, hc2]
        simp only [List.length_nil, Nat.add_zero]
        omega
      · have := sched_bound hs (by simp) pre w hw1
        simpa using this

theorem chunkSeq_barrier {W : Nat} {cs : List (List String)} {tr : List Ev}
    (h : ChunkSeq W cs tr) :
    ∀ pre g suf, tr = pre ++ Ev.start g :: suf →
    ∀ j (hj : j < cs.length), g ∈ cs.get ⟨j, hj⟩ →
    (∀ k (hk : k < cs.length), k ≠ j → ¬ g ∈ cs.get ⟨k, hk⟩) →
    ∀ i (hi : i < cs.length) f, i < j → f ∈ cs.get ⟨i, hi⟩ → Ev.finish f ∈ pre := by
  induction h with
  | nil =>
      intro pre g suf htr j hj
      exact absurd hj (by simp)
  | cons hs hcs ih =>
      rename_i c cs' tr1 tr2
      intro pre g suf htr j hj hg huniq i hi f hij hf
      cases j with
      | zero => omega
      | succ j' =>
          have hg0 : ¬ g ∈ c := by
            have := huniq 0 (by simp) (by omega)
            simpa using this
          have key : ∀ w, pre = tr1 ++ w → tr2 = w ++ Ev.start g :: suf → Ev.finish f ∈ pre := by
            intro w hw1 hw2
            cases i with
            | zero =>
                have hfc : f ∈ c := by simpa using hf
                have : Ev.finish f ∈ tr1 := sched_finish_mem hs f (Or.inl hfc)
                rw [hw1]
                exact List.mem_append_left _ this
            | succ i' =>
                have hj' : j' < cs'.length := by simpa using hj
                have hi' : i' < cs'.length := by simpa using hi
                have hg' : g ∈ cs'.get ⟨j', hj'⟩ := by simpa using hg
                have huniq' : ∀ k (hk : k < cs'.length), k ≠ j' → ¬ g ∈ cs'.get ⟨k, hk⟩ := by
                  intro k hk hkj
                  have := huniq (k + 1) (by simpa using Nat.succ_lt_succ hk) (by omega)
                  simpa using this
                have hf' : f ∈ cs'.get ⟨i', hi'⟩ := by simpa using hf
                have := ih w g suf hw2 j' hj' hg' huniq' i' hi' f (by omega) hf'
                rw [hw1]
                exact List.mem_append_right _ this
          rcases List.append_eq_append_iff.1 htr with ⟨w, hw1, hw2⟩ | ⟨w, hw1, hw2⟩
          · exact key w hw1 hw2
          · cases w with
            | nil =>
                exact key [] (by simpa using hw1.symm.symm ▸ (by simp [hw1]))
                  (by simpa using hw2.symm)
            | cons e rest =>
                have he : e = Ev.start g := by
                  have := (List.cons.inj hw2).1
                  exact this.symm
                have hmem : Ev.start g ∈ tr1 := by
                  rw [hw1, ← he]
                  exact List.mem_append_right _ (List.mem_cons_self _ _)
                exact absurd (sched_start_mem hs g hmem) hg0

theorem flatten_nodup_disjoint {cs : List (List String)} (h : cs.flatten.Nodup) :
    ∀ j k (hj : j < cs.length) (hk : k < cs.length), k ≠ j →
      ∀ g, g ∈ cs.get ⟨j, hj⟩ → ¬ g ∈ cs.get ⟨k, hk⟩ := by
  have hpw : cs.Pairwise List.Disjoint := (List.nodup_flatten.1 h).2
  have hget := List.pairwise_iff_get.1 hpw
  intro j k hj hk hkj g hgj hgk
  rcases Nat.lt_or_ge k j with hlt | hge
  · exact hget ⟨k, hk⟩ ⟨j, hj⟩ hlt hgk hgj
  · have hlt2 : j < k := by omega
    exact (hget ⟨j, hj⟩ ⟨k, hk⟩ hlt2).symm hgk hgj

/-- C6: for every admissible execution of the batch orchestrator with a
positive chunk size, (1) the submitted chunks partition the input file
sequence in order with each chunk of at most `batch_size` files, (2) every
file is started and completed, (3) at every point of the trace at most
`max_workers` files are concurrently active (started but unfinished), and
(4) for distinct input files the chunks are disjoint, and before any file
of a later chunk starts, every file of every earlier chunk has already
finished. -/
theorem C6_batch_chunked_concurrency (b W : Nat) (files : List String) (tr : List Ev)
    (hb : 0 < b) (htr : BatchTrace b W files tr) (hnd : files.Nodup) :
    ((chunksOf b files).flatten = files ∧ ∀ c ∈ chunksOf b files, c.length ≤ b) ∧
      (∀ f ∈ files, Ev.start f ∈ tr ∧ Ev.finish f ∈ tr) ∧
      (∀ pre suf, tr = pre ++ suf → startsIn pre ≤ finsIn pre + W) ∧
      (∀ pre g suf, tr = pre ++ Ev.start g :: suf →
        ∀ i j (hi : i < (chunksOf b files).length) (hj : j < (chunksOf b files).length),
          i < j → g ∈ (chunksOf b files).get ⟨j, hj⟩ →
          ∀ f ∈ (chunksOf b files).get ⟨i, hi⟩, Ev.finish f ∈ pre) := by
  have hfl : (chunksOf b files).flatten = files := chunksOf_flatten b files hb
  refine ⟨⟨hfl, fun c hc => chunksOf_length_le b files c hc⟩, ?_, chunkSeq_bound htr, ?_⟩
  · intro f hf
    exact chunkSeq_complete htr f (by rw [hfl]; exact hf)
  · intro pre g suf hpre i j hi hj hij hg f hf
    have hnd2 : (chunksOf b files).flatten.Nodup := by rw [hfl]; exact hnd
    exact chunkSeq_barrier htr pre g suf hpre j hj hg
      (fun k hk hkj => flatten_nodup_disjoint hnd2 j k hj hk hkj g hg) i hi f hij hf

/-- The demonstration trace for chunk size 2 and a single worker over three
files. -/
def demoTrace : List Ev :=
  [Ev.start ("a"), Ev.finish ("a"), Ev.start ("b"), Ev.finish ("b"),
   Ev.start ("c"), Ev.finish ("c")]

theorem demoTrace_batch : BatchTrace 2 1 [("a"), ("b"), ("c")] demoTrace := by
  show ChunkSeq 1 (chunksOf 2 [("a"), ("b"), ("c")]) demoTrace
  have h1 : Sched 1 [("a"), ("b")] []
      [Ev.start ("a"), Ev.finish ("a"), Ev.start ("b"), Ev.finish ("b")] := by
    refine Sched.start (by decide) ?_
    refine @Sched.finish 1 [("b")] [] [] ("a") _ ?_
    refine Sched.start (by decide) ?_
    exact @Sched.finish 1 [] [] [] ("b") _ Sched.done
  have h2 : Sched 1 [("c")] [] [Ev.start ("c"), Ev.finish ("c")] := by
    refine Sched.start (by decide) ?_
    exact @Sched.finish 1 [] [] [] ("c") _ Sched.done
  exact ChunkSeq.cons h1 (ChunkSeq.cons h2 ChunkSeq.nil)

/-- Witness for C6: the theorem applied to the concrete trace `demoTrace`
(chunk size 2, one worker, three distinct files). -/
theorem C6_batch_chunked_concurrency_witness :
    (chunksOf 2 [("a"), ("b"), ("c")]).flatten = [("a"), ("b"), ("c")] ∧
      (Ev.start ("c") ∈ demoTrace ∧ Ev.finish ("c") ∈ demoTrace) :=
  ⟨(C6_batch_chunked_concurrency 2 1 [("a"), ("b"), ("c")] demoTrace (by decide)
      demoTrace_batch (by decide)).1.1,
   (C6_batch_chunked_concurrency 2 1 [("a"), ("b"), ("c")] demoTrace (by decide)
      demoTrace_batch (by decide)).2.1 ("c") (by decide)⟩
